import Mathlib

/-!
Shallow embedding of `scripts/update_manifests.py` (build-artifact manifest
updater).  Python dictionaries are modelled as ordered association lists with
insertion-order semantics (assignment updates in place, new keys are appended,
`setdefault` appends only when absent), matching CPython's `dict`.  The
filesystem is modelled explicitly: each of the three root trees
(`firmware/`, `spiffs/`, `config/`) is an optional listing keyed by device
name; manifest files live inside the firmware root.  File contents are byte
lists; SHA-256 is implemented in full over byte lists.
-/

namespace Manifests

/-- Lookup in an ordered association list (first occurrence wins), the model
of Python `d[k]` / `k in d` for dictionaries and of path lookup in a
directory listing. -/
def alistGet {α : Type} : List (String × α) → String → Option α
  | [], _ => none
  | (k, v) :: rest, key => if k = key then some v else alistGet rest key

/-- Assignment `d[k] = v` on a Python dict: updates the first occurrence in
place, otherwise appends the new binding at the end. -/
def alistSet {α : Type} : List (String × α) → String → α → List (String × α)
  | [], key, val => [(key, val)]
  | (k, v) :: rest, key, val =>
      if k = key then (k, val) :: rest else (k, v) :: alistSet rest key val

theorem alistGet_set_self {α : Type} (l : List (String × α)) (k : String) (v : α) :
    alistGet (alistSet l k v) k = some v := by
  induction l with
  | nil => simp [alistGet, alistSet]
  | cons hd tl ih =>
      obtain ⟨k', v'⟩ := hd
      by_cases h : k' = k
      · simp [alistGet, alistSet, h]
      · simp [alistGet, alistSet, h, ih]

theorem alistGet_set_ne {α : Type} (l : List (String × α)) (k k' : String) (v : α)
    (h : k ≠ k') : alistGet (alistSet l k v) k' = alistGet l k' := by
  induction l with
  | nil => simp [alistGet, alistSet, h]
  | cons hd tl ih =>
      obtain ⟨k0, v0⟩ := hd
      by_cases h0 : k0 = k
      · subst h0; simp [alistGet, alistSet, h]
      · simp only [alistSet, if_neg h0]
        by_cases h1 : k0 = k'
        · simp [alistGet, h1]
        · simp [alistGet, h1, ih]

theorem alistSet_absorb {α : Type} (l : List (String × α)) (k : String) (v : α)
    (h : alistGet l k = some v) : alistSet l k v = l := by
  induction l with
  | nil => simp [alistGet] at h
  | cons hd tl ih =>
      obtain ⟨k0, v0⟩ := hd
      by_cases h0 : k0 = k
      · subst h0
        simp [alistGet] at h
        simp [alistSet, h]
      · simp only [alistGet, if_neg h0] at h
        simp [alistSet, h0, ih h]

theorem alistGet_append {α : Type} (l₁ l₂ : List (String × α)) (k : String) :
    alistGet (l₁ ++ l₂) k =
      match alistGet l₁ k with
      | some v => some v
      | none => alistGet l₂ k := by
  induction l₁ with
  | nil => simp [alistGet]
  | cons hd tl ih =>
      obtain ⟨k0, v0⟩ := hd
      by_cases h0 : k0 = k
      · simp [alistGet, h0]
      · simp [alistGet, h0, ih]

/-! ### SHA-256 over byte lists (model of `hashlib.sha256`) -/

/-- Truncation to a 32-bit word. -/
def w32 (n : Nat) : Nat := n % 4294967296

/-- 32-bit right rotation. -/
def rotr (n x : Nat) : Nat := w32 ((x >>> n) ||| (x <<< (32 - n)))

/-- 32-bit bitwise complement (for `x < 2^32`). -/
def wnot (x : Nat) : Nat := 4294967295 ^^^ x

def bsig0 (x : Nat) : Nat := (rotr 2 x) ^^^ (rotr 13 x) ^^^ (rotr 22 x)

def bsig1 (x : Nat) : Nat := (rotr 6 x) ^^^ (rotr 11 x) ^^^ (rotr 25 x)

def ssig0 (x : Nat) : Nat := (rotr 7 x) ^^^ (rotr 18 x) ^^^ (x >>> 3)

def ssig1 (x : Nat) : Nat := (rotr 17 x) ^^^ (rotr 19 x) ^^^ (x >>> 10)

def chf (x y z : Nat) : Nat := (x &&& y) ^^^ ((wnot x) &&& z)

def majf (x y z : Nat) : Nat := (x &&& y) ^^^ (x &&& z) ^^^ (y &&& z)

/-- The 64 SHA-256 round constants. -/
def K256 : List Nat :=
  [1116352408, 1899447441, 3049323471,
   3921009573, 961987163, 1508970993,
   2453635748, 2870763221, 3624381080,
   310598401, 607225278, 1426881987,
   1925078388, 2162078206, 2614888103,
   3248222580, 3835390401, 4022224774,
   264347078, 604807628, 770255983,
   1249150122, 1555081692, 1996064986,
   2554220882, 2821834349, 2952996808,
   3210313671, 3336571891, 3584528711,
   113926993, 338241895, 666307205,
   773529912, 1294757372, 1396182291,
   1695183700, 1986661051, 2177026350,
   2456956037, 2730485921, 2820302411,
   3259730800, 3345764771, 3516065817,
   3600352804, 4094571909, 275423344,
   430227734, 506948616, 659060556,
   883997877, 958139571, 1322822218,
   1537002063, 1747873779, 1955562222,
   2024104815, 2227730452, 2361852424,
   2428436474, 2756734187, 3204031479,
   3329325298]

/-- The SHA-256 initial hash state. -/
def H256 : List Nat :=
  [1779033703, 3144134277, 1013904242,
   2773480762, 1359893119, 2600822924,
   528734635, 1541459225]

/-- Split a list into consecutive chunks of size `n` (last one may be
shorter), the model both of 64-byte SHA-256 blocks and of the 65536-byte
reads done by `sha256_of`. -/
def chunksOf {α : Type} (n : Nat) : List α → List (List α)
  | [] => []
  | x :: xs =>
      if n = 0 then []
      else (x :: xs).take n :: chunksOf n ((x :: xs).drop n)
termination_by l => l.length
decreasing_by simp only [List.length_drop, List.length_cons]; omega

theorem chunksOf_flatten {α : Type} (n : Nat) (hn : n ≠ 0) :
    ∀ l : List α, (chunksOf n l).flatten = l
  | [] => by simp [chunksOf]
  | x :: xs => by
      rw [chunksOf, if_neg hn, List.flatten_cons,
        chunksOf_flatten n hn (List.drop n (x :: xs))]
      exact List.take_append_drop n (x :: xs)
termination_by l => l.length
decreasing_by simp only [List.length_drop, List.length_cons]; omega

/-- Big-endian encoding of `n` into `k` bytes. -/
def toBytesBE : Nat → Nat → List Nat
  | 0, _ => []
  | k + 1, n => toBytesBE k (n / 256) ++ [n % 256]

/-- Big-endian interpretation of a byte list as a word. -/
def wordOfBytes (bs : List Nat) : Nat := bs.foldl (fun a b => a * 256 + b) 0

/-- SHA-256 padding: append `0x80`, zeros, and the 64-bit big-endian bit
length so the total length is a multiple of 64 bytes. -/
def padMessage (msg : List Nat) : List Nat :=
  let L := msg.length
  let zeros := (64 - ((L + 9) % 64)) % 64
  msg ++ [128] ++ List.replicate zeros 0 ++ toBytesBE 8 ((L * 8) % (2 ^ 64))

/-- The 16 message words of one 64-byte block. -/
def toWords (block : List Nat) : List Nat := (chunksOf 4 block).map wordOfBytes

/-- Extend the 16 message words to the 64-entry message schedule. -/
def extendW (ws : List Nat) : List Nat :=
  if _h : 64 ≤ ws.length then ws
  else
    extendW (ws ++ [w32 (ssig1 (ws.getD (ws.length - 2) 0) +
      ws.getD (ws.length - 7) 0 + ssig0 (ws.getD (ws.length - 15) 0) +
      ws.getD (ws.length - 16) 0)])
termination_by 64 - ws.length
decreasing_by simp only [List.length_append, List.length_cons, List.length_nil]; omega

/-- One round of the SHA-256 compression function on the 8-word state. -/
def compressStep (st : List Nat) (kw : Nat × Nat) : List Nat :=
  match st with
  | [a, b, c, d, e, f, g, h] =>
      let t1 := w32 (h + bsig1 e + chf e f g + kw.1 + kw.2)
      let t2 := w32 (bsig0 a + majf a b c)
      [w32 (t1 + t2), a, b, c, w32 (d + t1), e, f, g]
  | other => other

/-- Compress one 64-byte block into the running 8-word hash state. -/
def compressBlock (H : List Nat) (block : List Nat) : List Nat :=
  let ws := extendW (toWords block)
  let st := (K256.zip ws).foldl compressStep H
  List.zipWith (fun x y => w32 (x + y)) H st

/-- The 8-word SHA-256 digest of a byte list. -/
def sha256Words (msg : List Nat) : List Nat :=
  (chunksOf 64 (padMessage msg)).foldl compressBlock H256

/-- One lowercase hex digit: `0`-`9` for values below ten, `a`-`f` for ten
to fifteen. -/
def hexChar (n : Nat) : Char :=
  if n < 10 then Char.ofNat (48 + n)
  else if n < 16 then Char.ofNat (87 + n)
  else Char.ofNat 48

/-- Fixed-width lowercase hex rendering (most significant digit first). -/
def toHexFixed : Nat → Nat → List Char
  | 0, _ => []
  | k + 1, n => toHexFixed k (n / 16) ++ [hexChar (n % 16)]

/-- `hexdigest()` of the SHA-256 of a byte list: 64 lowercase hex chars. -/
def sha256hex (msg : List Nat) : String :=
  String.mk (((sha256Words msg).map (toHexFixed 8)).flatten)

/-- Model of the Python helper `sha256_of`: the file is read in 65536-byte
chunks, each fed to `hashlib`'s running hash, whose digest is the SHA-256 of
the concatenation of everything fed so far. -/
def sha256_of (contents : List Nat) : String :=
  sha256hex ((chunksOf 65536 contents).foldl (fun acc c => acc ++ c) [])

/-! ### Version directories and `latest_version_dir` -/

/-- One entry of a device directory listing: its name, whether it is a
directory, and — for version directories of the firmware (resp. spiffs)
tree — the byte contents of the `firmware.bin` (resp. `spiffs.bin`) file
inside it, when that file exists. -/
structure DirEntry where
  name : String
  isDir : Bool
  bin : Option (List Nat)
deriving DecidableEq

/-- Digit-string to integer, the model of Python `int` on the digit runs
captured by the regex. -/
def parseNat (cs : List Char) : Nat :=
  cs.foldl (fun a c => a * 10 + (c.toNat - 48)) 0

/-- Model of `VERSION_RE = re.compile(r"^v(\d+\.\d+\.\d+)$")` applied with
`.match` to an (ASCII) name: on success returns the numeric
(major, minor, patch) triple and the captured group
`m.group(1)` (the name without the leading `v`). -/
def matchVer (s : String) : Option ((Nat × Nat × Nat) × String) :=
  match s.toList with
  | 'v' :: rest =>
      let p1 := rest.span Char.isDigit
      if p1.1 = [] then none
      else
        match p1.2 with
        | '.' :: r2 =>
            let p2 := r2.span Char.isDigit
            if p2.1 = [] then none
            else
              match p2.2 with
              | '.' :: r4 =>
                  let p3 := r4.span Char.isDigit
                  if p3.1 = [] then none
                  else if p3.2 = [] then
                    some ((parseNat p1.1, parseNat p2.1, parseNat p3.1),
                      String.mk rest)
                  else none
              | _ => none
        | _ => none
  | _ => none

/-- Python tuple comparison `t > b` on (major, minor, patch) triples:
lexicographic on the numeric components. -/
def tupGt : Nat × Nat × Nat → Nat × Nat × Nat → Bool
  | (a1, a2, a3), (b1, b2, b3) =>
      b1 < a1 || (a1 = b1 && (b2 < a2 || (a2 = b2 && b3 < a3)))

/-- The accumulator loop of `latest_version_dir`: `best` holds the numeric
triple, the captured version string and the entry of the best match so
far; non-directories and non-matching names are skipped; a later entry
replaces `best` only when its triple is strictly greater. -/
def lvdLoop (best : Option ((Nat × Nat × Nat) × String × DirEntry)) :
    List DirEntry → Option ((Nat × Nat × Nat) × String × DirEntry)
  | [] => best
  | e :: es =>
      if e.isDir then
        match matchVer e.name with
        | some (t, v) =>
            match best with
            | none => lvdLoop (some (t, v, e)) es
            | some b =>
                if tupGt t b.1 then lvdLoop (some (t, v, e)) es
                else lvdLoop best es
        | none => lvdLoop best es
      else lvdLoop best es

/-- `latest_version_dir`: `(version_string, entry)` for the highest-semver
subdirectory of a device directory listing, `none` if no entry matches. -/
def latest_version_dir (entries : List DirEntry) :
    Option (String × DirEntry) :=
  (lvdLoop none entries).map (fun b => (b.2.1, b.2.2))

/-! ### JSON values, manifests and `json.dump(..., indent=2)` -/

/-- JSON values as produced/consumed by the tool: strings, integers, and
objects with insertion-ordered keys (the CPython `dict` order). -/
inductive JVal where
  | str (s : String)
  | num (n : Int)
  | obj (kvs : List (String × JVal))

/-- A manifest document: a JSON object, kept as its ordered key list. -/
abbrev Manifest := List (String × JVal)

/-- `m[k]` on the manifest dict. -/
def dictGet (m : Manifest) (k : String) : Option JVal := alistGet m k

/-- `m[k] = v` on the manifest dict. -/
def dictSet (m : Manifest) (k : String) (v : JVal) : Manifest := alistSet m k v

/-- `m.setdefault(k, v)`: keeps the dict unchanged when the key is present,
otherwise appends the new binding. -/
def dictSetdefault (m : Manifest) (k : String) (v : JVal) : Manifest :=
  match dictGet m k with
  | some _ => m
  | none => m ++ [(k, v)]

def indentStr (n : Nat) : String := String.mk (List.replicate n ' ')

/-- JSON string escaping as done by `json.dump` (with its default
`ensure_ascii=True`). -/
def escChar (c : Char) : String :=
  if c = '"' then "\\\""
  else if c = '\\' then "\\\\"
  else if c = '\n' then "\\n"
  else if c = '\t' then "\\t"
  else if c = '\r' then "\\r"
  else if c.toNat = 8 then "\\b"
  else if c.toNat = 12 then "\\f"
  else if c.toNat < 32 then "\\u" ++ String.mk (toHexFixed 4 c.toNat)
  else if c.toNat < 127 then String.mk [c]
  else if c.toNat < 65536 then "\\u" ++ String.mk (toHexFixed 4 c.toNat)
  else
    "\\u" ++ String.mk (toHexFixed 4 (55296 + (c.toNat - 65536) / 1024)) ++
    "\\u" ++ String.mk (toHexFixed 4 (56320 + (c.toNat - 65536) % 1024))

def quoteStr (s : String) : String :=
  "\"" ++ String.join (s.toList.map escChar) ++ "\""

def joinSep (sep : String) (l : List String) : String :=
  String.join (l.intersperse sep)

mutual

/-- `json.dumps(v, indent=2)` at nesting indentation `ind`. -/
def jser (ind : Nat) : JVal → String
  | .str s => quoteStr s
  | .num n => toString n
  | .obj [] => "\x7b\x7d"
  | .obj (kv :: kvs) =>
      "\x7b\n" ++ joinSep ",\n" (jserItems (ind + 2) (kv :: kvs)) ++ "\n" ++
        indentStr ind ++ "\x7d"

def jserItems (ind : Nat) : List (String × JVal) → List String
  | [] => []
  | (k, v) :: rest =>
      (indentStr ind ++ quoteStr k ++ ": " ++ jser ind v) :: jserItems ind rest

end

/-- The bytes `save_manifest` writes: the 2-space-indented JSON document
followed by a trailing newline. -/
def serializeManifest (m : Manifest) : String := jser 0 (.obj m) ++ "\n"

/-! ### The filesystem model and the per-device processing -/

/-- A manifest file on disk: either a JSON document (recorded by its parsed
object, `json.load`/`json.dump` being mutually inverse on the documents the
tool reads back) or a file whose contents are not valid JSON, on which
`json.load` raises. -/
inductive JsonFile where
  | valid (m : Manifest)
  | malformed

/-- The `firmware/` root directory: its device subdirectories (each a
listing of version-directory entries) and the `<device>.manifest.json`
files living directly inside it. -/
structure FwRoot where
  deviceDirs : List (String × List DirEntry)
  manifests : List (String × JsonFile)

/-- The filesystem as seen by the tool: each of the three sibling roots may
be absent (`none`).  `spiffs/` is a map from device name to the device's
version-directory listing; `config/` maps a device name to the contents of
its `config.yaml` when that file exists. -/
structure FS where
  fw : Option FwRoot
  sp : Option (List (String × List DirEntry))
  cfg : Option (List (String × Option (List Nat)))

def REPO_URL_BASE : String :=
  "https://raw.githubusercontent.com/kubkpower/halloween_dmx_pub/main"

def schemaDefault : String := REPO_URL_BASE ++ "/manifest.schema.json"

/-- The JSON record `process_firmware` stores under `"firmware"`. -/
def fwJson (device vdirName : String) (contents : List Nat) : JVal :=
  .obj [("url", .str (REPO_URL_BASE ++ "/firmware/" ++ device ++ "/" ++
           vdirName ++ "/firmware.bin")),
        ("sha256", .str (sha256_of contents)),
        ("size", .num contents.length)]

/-- The JSON record `process_spiffs` stores under `"spiffs"`. -/
def spJson (device vdirName : String) (contents : List Nat) : JVal :=
  .obj [("url", .str (REPO_URL_BASE ++ "/spiffs/" ++ device ++ "/" ++
           vdirName ++ "/spiffs.bin")),
        ("sha256", .str (sha256_of contents)),
        ("size", .num contents.length)]

/-- The JSON record `process_config` stores under `"config"` (no `size`). -/
def cfgJson (device : String) (contents : List Nat) : JVal :=
  .obj [("url", .str (REPO_URL_BASE ++ "/config/" ++ device ++
           "/config.yaml")),
        ("sha256", .str (sha256_of contents))]

/-- `process_firmware`: on success sets `version` and `firmware` and
returns `true`; otherwise leaves the manifest untouched and returns
`false`. -/
def process_firmware (m : Manifest) (device : String)
    (entries : List DirEntry) : Manifest × Bool :=
  match latest_version_dir entries with
  | none => (m, false)
  | some (version, vdir) =>
      match vdir.bin with
      | none => (m, false)
      | some contents =>
          (dictSet (dictSet m "version" (.str version)) "firmware"
            (fwJson device vdir.name contents), true)

/-- `process_spiffs`: on success sets only the `spiffs` key; silent no-op
otherwise. -/
def process_spiffs (m : Manifest) (device : String)
    (entries : List DirEntry) : Manifest :=
  match latest_version_dir entries with
  | none => m
  | some (_version, vdir) =>
      match vdir.bin with
      | none => m
      | some contents => dictSet m "spiffs" (spJson device vdir.name contents)

/-- `process_config`: sets the `config` key when `config.yaml` exists. -/
def process_config (m : Manifest) (device : String)
    (yaml : Option (List Nat)) : Manifest :=
  match yaml with
  | none => m
  | some contents => dictSet m "config" (cfgJson device contents)

/-- `firmware/<device>` as a directory listing, when it exists. -/
def fwDirOf (fs : FS) (device : String) : Option (List DirEntry) :=
  fs.fw.bind (fun r => alistGet r.deviceDirs device)

/-- `spiffs/<device>` as a directory listing, when it exists. -/
def spDirOf (fs : FS) (device : String) : Option (List DirEntry) :=
  fs.sp.bind (fun l => alistGet l device)

/-- `config/<device>`, when it exists: `some yaml?` where `yaml?` is the
contents of `config.yaml` if that file is present. -/
def cfgDirOf (fs : FS) (device : String) : Option (Option (List Nat)) :=
  fs.cfg.bind (fun l => alistGet l device)

/-- The in-memory mutation of one device's manifest performed by the loop
body of `main`: the three `setdefault`s followed by the conditional
firmware/spiffs/config processing.  The second component is `found_fw`. -/
def applyDevice (fs : FS) (device : String) (m0 : Manifest) :
    Manifest × Bool :=
  let m1 := dictSetdefault m0 "$schema" (.str schemaDefault)
  let m2 := dictSetdefault m1 "name" (.str device)
  let m3 := dictSetdefault m2 "chip" (.str "esp32")
  let fwr :=
    match fwDirOf fs device with
    | some es => process_firmware m3 device es
    | none => (m3, false)
  let m4 :=
    match spDirOf fs device with
    | some es => process_spiffs fwr.1 device es
    | none => fwr.1
  let m5 :=
    match cfgDirOf fs device with
    | some y => process_config m4 device y
    | none => m4
  (m5, fwr.2)

/-- `load_manifest` for one device: `{}` when the manifest file does not
exist (in particular when the whole `firmware/` root is missing), the
parsed object when it is valid JSON, and `none` (a raised
`json.JSONDecodeError`) when it is malformed. -/
def loadManifest (fs : FS) (store : List (String × JsonFile))
    (device : String) : Option Manifest :=
  match fs.fw with
  | none => some []
  | some _ =>
      match alistGet store device with
      | none => some []
      | some (.valid m) => some m
      | some .malformed => none

def noteFor (device : String) : String :=
  "  Note: no firmware binary found for " ++ device ++
    "; firmware section not updated."

def updatedMsg (device : String) : String :=
  "Updated " ++ device ++ ".manifest.json"

def doneMsg (n : Nat) : String :=
  "\nDone. " ++ toString n ++ " manifest(s) updated."

def noDevicesMsg : String := "No device directories found; nothing to do."

/-- The mutable state threaded through the device loop of `main`: the
manifest files inside `firmware/`, the stdout lines printed so far, and
`len(updated)`. -/
structure RunState where
  store : List (String × JsonFile)
  output : List String
  count : Nat

/-- One iteration of the device loop.  `Except.error` models an uncaught
exception: `json.load` raising on a malformed pre-existing manifest (before
any print for this device), or `open(..., "w")` raising in `save_manifest`
because the `firmware/` root directory does not exist (after the optional
note was printed).  The error value is the state at the moment of the
raise. -/
def stepDevice (fs : FS) (st : RunState) (device : String) :
    Except RunState RunState :=
  match loadManifest fs st.store device with
  | none => .error st
  | some m0 =>
      let r := applyDevice fs device m0
      let noteOut := if r.2 then [] else [noteFor device]
      match fs.fw with
      | none => .error { st with output := st.output ++ noteOut }
      | some _ =>
          .ok { store := alistSet st.store device (.valid r.1),
                output := st.output ++ noteOut ++ [updatedMsg device],
                count := st.count + 1 }

/-- The device loop of `main` followed by the final `Done.` print; the
boolean is `false` when an exception aborted the run. -/
def runDevices (fs : FS) : List String → RunState → RunState × Bool
  | [], st =>
      ({ st with output := st.output ++ [doneMsg st.count] }, true)
  | d :: ds, st =>
      match stepDevice fs st d with
      | .error st' => (st', false)
      | .ok st' => runDevices fs ds st'

/-- Lexicographic code-point comparison of character lists, the ordering
Python's `sorted` uses on `str`. -/
def charListLt : List Char → List Char → Bool
  | [], [] => false
  | [], _ :: _ => true
  | _ :: _, [] => false
  | c1 :: r1, c2 :: r2 =>
      if c1.toNat < c2.toNat then true
      else if c2.toNat < c1.toNat then false
      else charListLt r1 r2

def strLt (a b : String) : Bool := charListLt a.toList b.toList

/-- Sorted-set insertion used to model Python `sorted(set(...))`. -/
def insertSorted (x : String) : List String → List String
  | [] => [x]
  | y :: ys =>
      if x = y then y :: ys
      else if strLt x y then x :: y :: ys
      else y :: insertSorted x ys

def sortDedup (l : List String) : List String := l.foldr insertSorted []

/-- Device-directory names contributed by one (optional) root. -/
def rootNames : Option (List (String × List DirEntry)) → List String
  | none => []
  | some l => l.map Prod.fst

def cfgNames : Option (List (String × Option (List Nat))) → List String
  | none => []
  | some l => l.map Prod.fst

/-- `sorted(devices)` where `devices` is the set union of the subdirectory
names of the three roots (roots that do not exist contribute nothing). -/
def discover (fs : FS) : List String :=
  sortDedup (rootNames (fs.fw.map FwRoot.deviceDirs) ++ rootNames fs.sp ++
    cfgNames fs.cfg)

/-- The manifest files of `firmware/` before the run. -/
def initStore (fs : FS) : List (String × JsonFile) :=
  match fs.fw with
  | none => []
  | some r => r.manifests

/-- Writing the final manifest-file state back into the filesystem. -/
def setManifests (fs : FS) (store : List (String × JsonFile)) : FS :=
  { fs with fw := fs.fw.map (fun r => { r with manifests := store }) }

/-- The observable outcome of one invocation: the filesystem after the run,
everything printed to stdout, and whether the process finished normally
(`true`, exit code 0) or died on an uncaught exception (`false`). -/
structure RunResult where
  fs : FS
  output : List String
  ok : Bool

/-- `main()`: discover devices, bail out with a message when there are
none, otherwise run the per-device loop. -/
def mainRun (fs : FS) : RunResult :=
  let ds := discover fs
  if ds = [] then { fs := fs, output := [noDevicesMsg], ok := true }
  else
    let r := runDevices fs ds { store := initStore fs, output := [], count := 0 }
    { fs := setManifests fs r.1.store, output := r.1.output, ok := r.2 }

/-- The manifest files of `firmware/` after a run. -/
def finalManifests (r : RunResult) : List (String × JsonFile) :=
  initStore r.fs

/-! ### Outcome views of the three processing steps -/

/-- What `process_firmware` finds in a given firmware device listing:
`none` when there is no matching version directory or no `firmware.bin` in
the latest one, otherwise the version string and the firmware record. -/
def fwEntryOutcome (device : String) (es : List DirEntry) :
    Option (String × JVal) :=
  match latest_version_dir es with
  | none => none
  | some (v, vdir) =>
      match vdir.bin with
      | none => none
      | some contents => some (v, fwJson device vdir.name contents)

/-- What `process_spiffs` finds in a spiffs device listing. -/
def spEntryOutcome (device : String) (es : List DirEntry) : Option JVal :=
  match latest_version_dir es with
  | none => none
  | some (_v, vdir) =>
      match vdir.bin with
      | none => none
      | some contents => some (spJson device vdir.name contents)

/-- The fresh firmware data found for a device (`none` also when the
device's firmware directory does not exist). -/
def fwOutcome (fs : FS) (device : String) : Option (String × JVal) :=
  (fwDirOf fs device).bind (fwEntryOutcome device)

def spOutcome (fs : FS) (device : String) : Option JVal :=
  (spDirOf fs device).bind (spEntryOutcome device)

def cfgOutcome (fs : FS) (device : String) : Option JVal :=
  match cfgDirOf fs device with
  | none => none
  | some none => none
  | some (some contents) => some (cfgJson device contents)

theorem process_firmware_eq (m : Manifest) (device : String)
    (es : List DirEntry) :
    process_firmware m device es =
      match fwEntryOutcome device es with
      | none => (m, false)
      | some (v, F) =>
          (dictSet (dictSet m "version" (.str v)) "firmware" F, true) := by
  unfold process_firmware fwEntryOutcome
  cases hl : latest_version_dir es with
  | none => rfl
  | some p =>
      obtain ⟨v, vdir⟩ := p
      rcases hb : vdir.bin with _ | c <;> simp [hb]

theorem process_spiffs_eq (m : Manifest) (device : String)
    (es : List DirEntry) :
    process_spiffs m device es =
      match spEntryOutcome device es with
      | none => m
      | some S => dictSet m "spiffs" S := by
  unfold process_spiffs spEntryOutcome
  cases hl : latest_version_dir es with
  | none => rfl
  | some p =>
      obtain ⟨v, vdir⟩ := p
      rcases hb : vdir.bin with _ | c <;> simp [hb]

/-! ### Dictionary lemmas -/

theorem dictGet_setdefault_self (m : Manifest) (k : String) (v : JVal) :
    dictGet (dictSetdefault m k v) k = some ((dictGet m k).getD v) := by
  unfold dictSetdefault
  cases h : dictGet m k with
  | some w => simp [h]
  | none =>
      show alistGet (m ++ [(k, v)]) k = some v
      rw [alistGet_append]
      simp [dictGet] at h
      simp [h, alistGet]

theorem dictGet_setdefault_ne (m : Manifest) (k k' : String) (v : JVal)
    (h : k ≠ k') : dictGet (dictSetdefault m k v) k' = dictGet m k' := by
  unfold dictSetdefault
  cases hg : dictGet m k with
  | some w => rfl
  | none =>
      show alistGet (m ++ [(k, v)]) k' = dictGet m k'
      rw [alistGet_append]
      cases hg' : dictGet m k' with
      | some w => simp [dictGet] at hg'; simp [hg']
      | none => simp [dictGet] at hg'; simp [hg', alistGet, h]

theorem dictSetdefault_present (m : Manifest) (k : String) (v w : JVal)
    (h : dictGet m k = some w) : dictSetdefault m k v = m := by
  unfold dictSetdefault
  rw [h]

theorem dictGet_set_self (m : Manifest) (k : String) (v : JVal) :
    dictGet (dictSet m k v) k = some v := alistGet_set_self m k v

theorem dictGet_set_ne (m : Manifest) (k k' : String) (v : JVal)
    (h : k ≠ k') : dictGet (dictSet m k v) k' = dictGet m k' :=
  alistGet_set_ne m k k' v h

theorem dictSet_absorb (m : Manifest) (k : String) (v : JVal)
    (h : dictGet m k = some v) : dictSet m k v = m :=
  alistSet_absorb m k v h

/-! ### Canonical form and key-lookup lemmas for `applyDevice` -/

/-- The three `setdefault`s at the top of the device loop. -/
def defaultsOf (device : String) (m0 : Manifest) : Manifest :=
  dictSetdefault (dictSetdefault (dictSetdefault m0 "$schema"
    (.str schemaDefault)) "name" (.str device)) "chip" (.str "esp32")

/-- `applyDevice` rewritten through the outcome views. -/
def applyDeviceC (fs : FS) (device : String) (m0 : Manifest) :
    Manifest × Bool :=
  let md := defaultsOf device m0
  let mf :=
    match fwOutcome fs device with
    | none => md
    | some (v, F) => dictSet (dictSet md "version" (.str v)) "firmware" F
  let ms :=
    match spOutcome fs device with
    | none => mf
    | some S => dictSet mf "spiffs" S
  let mc :=
    match cfgOutcome fs device with
    | none => ms
    | some C => dictSet ms "config" C
  (mc, (fwOutcome fs device).isSome)

theorem applyDevice_eq (fs : FS) (device : String) (m0 : Manifest) :
    applyDevice fs device m0 = applyDeviceC fs device m0 := by
  unfold applyDevice applyDeviceC fwOutcome spOutcome cfgOutcome defaultsOf
  cases hf : fwDirOf fs device <;> cases hs : spDirOf fs device <;>
    rcases hc : cfgDirOf fs device with _ | (_ | y) <;>
    simp only [process_firmware_eq, process_spiffs_eq, process_config,
      Option.bind] <;>
    (repeat' split) <;> simp_all

theorem dg_defaults_schema (device : String) (m0 : Manifest) :
    dictGet (defaultsOf device m0) "$schema" =
      some ((dictGet m0 "$schema").getD (.str schemaDefault)) := by
  unfold defaultsOf
  rw [dictGet_setdefault_ne _ _ _ _ (by decide),
    dictGet_setdefault_ne _ _ _ _ (by decide), dictGet_setdefault_self]

theorem dg_defaults_name (device : String) (m0 : Manifest) :
    dictGet (defaultsOf device m0) "name" =
      some ((dictGet (dictSetdefault m0 "$schema" (.str schemaDefault))
        "name").getD (.str device)) := by
  unfold defaultsOf
  rw [dictGet_setdefault_ne _ _ _ _ (by decide), dictGet_setdefault_self]

theorem dg_defaults_chip (device : String) (m0 : Manifest) :
    (dictGet (defaultsOf device m0) "chip").isSome = true := by
  unfold defaultsOf
  rw [dictGet_setdefault_self]
  rfl

theorem dg_defaults_other (device : String) (m0 : Manifest) (k : String)
    (h1 : k ≠ "$schema") (h2 : k ≠ "name") (h3 : k ≠ "chip") :
    dictGet (defaultsOf device m0) k = dictGet m0 k := by
  unfold defaultsOf
  rw [dictGet_setdefault_ne _ _ _ _ (Ne.symm h3),
    dictGet_setdefault_ne _ _ _ _ (Ne.symm h2),
    dictGet_setdefault_ne _ _ _ _ (Ne.symm h1)]

theorem apply_snd (fs : FS) (device : String) (m0 : Manifest) :
    (applyDevice fs device m0).2 = (fwOutcome fs device).isSome := by
  rw [applyDevice_eq]; rfl

theorem apply_get_config (fs : FS) (device : String) (m0 : Manifest) :
    dictGet (applyDevice fs device m0).1 "config" =
      match cfgOutcome fs device with
      | some C => some C
      | none => dictGet m0 "config" := by
  rw [applyDevice_eq]
  unfold applyDeviceC
  cases hc : cfgOutcome fs device <;>
    cases hsp : spOutcome fs device <;>
    rcases hfw : fwOutcome fs device with _ | ⟨v, F⟩ <;>
    simp only [dictGet_set_self, dictGet_set_ne _ _ _ _ (by decide : "spiffs" ≠ "config"),
      dictGet_set_ne _ _ _ _ (by decide : "firmware" ≠ "config"),
      dictGet_set_ne _ _ _ _ (by decide : "version" ≠ "config")] <;>
    exact dg_defaults_other device m0 "config" (by decide) (by decide) (by decide)

theorem apply_get_spiffs (fs : FS) (device : String) (m0 : Manifest) :
    dictGet (applyDevice fs device m0).1 "spiffs" =
      match spOutcome fs device with
      | some S => some S
      | none => dictGet m0 "spiffs" := by
  rw [applyDevice_eq]
  unfold applyDeviceC
  cases hc : cfgOutcome fs device <;>
    cases hsp : spOutcome fs device <;>
    rcases hfw : fwOutcome fs device with _ | ⟨v, F⟩ <;>
    simp only [dictGet_set_self, dictGet_set_ne _ _ _ _ (by decide : "config" ≠ "spiffs"),
      dictGet_set_ne _ _ _ _ (by decide : "firmware" ≠ "spiffs"),
      dictGet_set_ne _ _ _ _ (by decide : "version" ≠ "spiffs")] <;>
    exact dg_defaults_other device m0 "spiffs" (by decide) (by decide) (by decide)

theorem apply_get_version (fs : FS) (device : String) (m0 : Manifest) :
    dictGet (applyDevice fs device m0).1 "version" =
      match fwOutcome fs device with
      | some (v, _F) => some (.str v)
      | none => dictGet m0 "version" := by
  rw [applyDevice_eq]
  unfold applyDeviceC
  cases hc : cfgOutcome fs device <;>
    cases hsp : spOutcome fs device <;>
    rcases hfw : fwOutcome fs device with _ | ⟨v, F⟩ <;>
    simp only [dictGet_set_self, dictGet_set_ne _ _ _ _ (by decide : "config" ≠ "version"),
      dictGet_set_ne _ _ _ _ (by decide : "spiffs" ≠ "version"),
      dictGet_set_ne _ _ _ _ (by decide : "firmware" ≠ "version")] <;>
    first
    | rfl
    | exact dg_defaults_other device m0 "version" (by decide) (by decide) (by decide)

theorem apply_get_firmware (fs : FS) (device : String) (m0 : Manifest) :
    dictGet (applyDevice fs device m0).1 "firmware" =
      match fwOutcome fs device with
      | some (_v, F) => some F
      | none => dictGet m0 "firmware" := by
  rw [applyDevice_eq]
  unfold applyDeviceC
  cases hc : cfgOutcome fs device <;>
    cases hsp : spOutcome fs device <;>
    rcases hfw : fwOutcome fs device with _ | ⟨v, F⟩ <;>
    simp only [dictGet_set_self, dictGet_set_ne _ _ _ _ (by decide : "config" ≠ "firmware"),
      dictGet_set_ne _ _ _ _ (by decide : "spiffs" ≠ "firmware")] <;>
    first
    | rfl
    | exact dg_defaults_other device m0 "firmware" (by decide) (by decide) (by decide)

theorem apply_get_schema (fs : FS) (device : String) (m0 : Manifest) :
    dictGet (applyDevice fs device m0).1 "$schema" =
      some ((dictGet m0 "$schema").getD (.str schemaDefault)) := by
  rw [applyDevice_eq]
  unfold applyDeviceC
  cases hc : cfgOutcome fs device <;>
    cases hsp : spOutcome fs device <;>
    rcases hfw : fwOutcome fs device with _ | ⟨v, F⟩ <;>
    simp only [dictGet_set_ne _ _ _ _ (by decide : "config" ≠ "$schema"),
      dictGet_set_ne _ _ _ _ (by decide : "spiffs" ≠ "$schema"),
      dictGet_set_ne _ _ _ _ (by decide : "firmware" ≠ "$schema"),
      dictGet_set_ne _ _ _ _ (by decide : "version" ≠ "$schema")] <;>
    exact dg_defaults_schema device m0

theorem apply_get_name (fs : FS) (device : String) (m0 : Manifest) :
    dictGet (applyDevice fs device m0).1 "name" =
      some ((dictGet (dictSetdefault m0 "$schema" (.str schemaDefault))
        "name").getD (.str device)) := by
  rw [applyDevice_eq]
  unfold applyDeviceC
  cases hc : cfgOutcome fs device <;>
    cases hsp : spOutcome fs device <;>
    rcases hfw : fwOutcome fs device with _ | ⟨v, F⟩ <;>
    simp only [dictGet_set_ne _ _ _ _ (by decide : "config" ≠ "name"),
      dictGet_set_ne _ _ _ _ (by decide : "spiffs" ≠ "name"),
      dictGet_set_ne _ _ _ _ (by decide : "firmware" ≠ "name"),
      dictGet_set_ne _ _ _ _ (by decide : "version" ≠ "name")] <;>
    exact dg_defaults_name device m0

theorem apply_get_chip (fs : FS) (device : String) (m0 : Manifest) :
    (dictGet (applyDevice fs device m0).1 "chip").isSome = true := by
  rw [applyDevice_eq]
  unfold applyDeviceC
  cases hc : cfgOutcome fs device <;>
    cases hsp : spOutcome fs device <;>
    rcases hfw : fwOutcome fs device with _ | ⟨v, F⟩ <;>
    simp only [dictGet_set_ne _ _ _ _ (by decide : "config" ≠ "chip"),
      dictGet_set_ne _ _ _ _ (by decide : "spiffs" ≠ "chip"),
      dictGet_set_ne _ _ _ _ (by decide : "firmware" ≠ "chip"),
      dictGet_set_ne _ _ _ _ (by decide : "version" ≠ "chip")] <;>
    exact dg_defaults_chip device m0

theorem apply_get_other (fs : FS) (device : String) (m0 : Manifest)
    (k : String) (h1 : k ≠ "$schema") (h2 : k ≠ "name") (h3 : k ≠ "chip")
    (h4 : k ≠ "version") (h5 : k ≠ "firmware") (h6 : k ≠ "spiffs")
    (h7 : k ≠ "config") :
    dictGet (applyDevice fs device m0).1 k = dictGet m0 k := by
  rw [applyDevice_eq]
  unfold applyDeviceC
  cases hc : cfgOutcome fs device <;>
    cases hsp : spOutcome fs device <;>
    rcases hfw : fwOutcome fs device with _ | ⟨v, F⟩ <;>
    simp only [dictGet_set_ne _ _ _ _ (Ne.symm h7),
      dictGet_set_ne _ _ _ _ (Ne.symm h6),
      dictGet_set_ne _ _ _ _ (Ne.symm h5),
      dictGet_set_ne _ _ _ _ (Ne.symm h4)] <;>
    exact dg_defaults_other device m0 k h1 h2 h3

/-- Re-processing a device on the manifest the loop just produced changes
nothing: every key the loop would set already holds exactly the value it
would set. -/
theorem apply_idem (fs : FS) (device : String) (m0 : Manifest) :
    applyDevice fs device (applyDevice fs device m0).1 =
      applyDevice fs device m0 := by
  have hs1 : dictSetdefault (applyDevice fs device m0).1 "$schema"
      (.str schemaDefault) = (applyDevice fs device m0).1 :=
    dictSetdefault_present _ _ _ _ (apply_get_schema fs device m0)
  have hs2 : dictSetdefault (applyDevice fs device m0).1 "name"
      (.str device) = (applyDevice fs device m0).1 :=
    dictSetdefault_present _ _ _ _ (apply_get_name fs device m0)
  obtain ⟨w, hw⟩ := Option.isSome_iff_exists.mp (apply_get_chip fs device m0)
  have hs3 : dictSetdefault (applyDevice fs device m0).1 "chip"
      (.str "esp32") = (applyDevice fs device m0).1 :=
    dictSetdefault_present _ _ _ _ hw
  have hdef : defaultsOf device (applyDevice fs device m0).1 =
      (applyDevice fs device m0).1 := by
    unfold defaultsOf; rw [hs1, hs2, hs3]
  rw [applyDevice_eq fs device (applyDevice fs device m0).1]
  unfold applyDeviceC
  simp only [hdef]
  have hsnd := apply_snd fs device m0
  cases hfw : fwOutcome fs device with
  | none =>
      rw [hfw] at hsnd
      cases hsp : spOutcome fs device with
      | none =>
          cases hcfg : cfgOutcome fs device with
          | none =>
              dsimp only
              exact Prod.ext rfl hsnd.symm
          | some C =>
              have hc : dictGet (applyDevice fs device m0).1 "config" =
                  some C := by
                have h := apply_get_config fs device m0; rw [hcfg] at h; exact h
              dsimp only
              rw [dictSet_absorb _ _ _ hc]
              exact Prod.ext rfl hsnd.symm
      | some S =>
          have hs : dictGet (applyDevice fs device m0).1 "spiffs" = some S := by
            have h := apply_get_spiffs fs device m0; rw [hsp] at h; exact h
          cases hcfg : cfgOutcome fs device with
          | none =>
              dsimp only
              rw [dictSet_absorb _ _ _ hs]
              exact Prod.ext rfl hsnd.symm
          | some C =>
              dsimp only
              rw [dictSet_absorb _ _ _ hs]
              have hc : dictGet (applyDevice fs device m0).1 "config" =
                  some C := by
                have h := apply_get_config fs device m0; rw [hcfg] at h; exact h
              rw [dictSet_absorb _ _ _ hc]
              exact Prod.ext rfl hsnd.symm
  | some p =>
      obtain ⟨v, F⟩ := p
      rw [hfw] at hsnd
      have hv : dictGet (applyDevice fs device m0).1 "version" =
          some (.str v) := by
        have h := apply_get_version fs device m0; rw [hfw] at h; exact h
      have hf : dictGet (applyDevice fs device m0).1 "firmware" = some F := by
        have h := apply_get_firmware fs device m0; rw [hfw] at h; exact h
      cases hsp : spOutcome fs device with
      | none =>
          cases hcfg : cfgOutcome fs device with
          | none =>
              dsimp only
              rw [dictSet_absorb _ _ _ hv, dictSet_absorb _ _ _ hf]
              exact Prod.ext rfl hsnd.symm
          | some C =>
              have hc : dictGet (applyDevice fs device m0).1 "config" =
                  some C := by
                have h := apply_get_config fs device m0; rw [hcfg] at h; exact h
              dsimp only
              rw [dictSet_absorb _ _ _ hv, dictSet_absorb _ _ _ hf,
                dictSet_absorb _ _ _ hc]
              exact Prod.ext rfl hsnd.symm
      | some S =>
          have hs : dictGet (applyDevice fs device m0).1 "spiffs" = some S := by
            have h := apply_get_spiffs fs device m0; rw [hsp] at h; exact h
          cases hcfg : cfgOutcome fs device with
          | none =>
              dsimp only
              rw [dictSet_absorb _ _ _ hv, dictSet_absorb _ _ _ hf,
                dictSet_absorb _ _ _ hs]
              exact Prod.ext rfl hsnd.symm
          | some C =>
              have hc : dictGet (applyDevice fs device m0).1 "config" =
                  some C := by
                have h := apply_get_config fs device m0; rw [hcfg] at h; exact h
              dsimp only
              rw [dictSet_absorb _ _ _ hv, dictSet_absorb _ _ _ hf,
                dictSet_absorb _ _ _ hs, dictSet_absorb _ _ _ hc]
              exact Prod.ext rfl hsnd.symm

/-! ### Run-loop lemmas -/

theorem loadManifest_set_ne (fs : FS) (store : List (String × JsonFile))
    (e d : String) (f : JsonFile) (h : e ≠ d) :
    loadManifest fs (alistSet store e f) d = loadManifest fs store d := by
  unfold loadManifest
  cases fs.fw with
  | none => rfl
  | some r => rw [alistGet_set_ne store e d f h]

/-- Devices not in the remaining work list keep their manifest file
untouched (also across an aborted run). -/
theorem runDevices_frame (fs : FS) :
    ∀ (ds : List String) (st : RunState) (d : String), d ∉ ds →
      alistGet ((runDevices fs ds st).1).store d = alistGet st.store d := by
  intro ds
  induction ds with
  | nil => intro st d _; rfl
  | cons e ds ih =>
      intro st d hd
      have hde : d ≠ e := fun h => hd (h ▸ List.mem_cons_self e ds)
      have hdds : d ∉ ds := fun h => hd (List.mem_cons_of_mem e h)
      show alistGet ((runDevices fs (e :: ds) st).1).store d = _
      unfold runDevices stepDevice
      cases hl : loadManifest fs st.store e with
      | none => rfl
      | some m0 =>
          cases hf : fs.fw with
          | none => rfl
          | some r =>
              dsimp only
              rw [ih _ d hdds]
              exact alistGet_set_ne st.store e d _ (Ne.symm hde)

/-- Stdout lines already printed stay printed. -/
theorem runDevices_output_mono (fs : FS) :
    ∀ (ds : List String) (st : RunState) (x : String), x ∈ st.output →
      x ∈ ((runDevices fs ds st).1).output := by
  intro ds
  induction ds with
  | nil =>
      intro st x hx
      exact List.mem_append_left _ hx
  | cons e ds ih =>
      intro st x hx
      show x ∈ ((runDevices fs (e :: ds) st).1).output
      unfold runDevices stepDevice
      cases hl : loadManifest fs st.store e with
      | none => exact hx
      | some m0 =>
          cases hf : fs.fw with
          | none => exact List.mem_append_left _ hx
          | some r =>
              dsimp only
              exact ih _ x (List.mem_append_left _ (List.mem_append_left _ hx))

/-- In a run that finished normally, every device of the work list had its
manifest loaded successfully and rewritten as `applyDevice` dictates, and
got the firmware-missing note whenever no firmware binary was found. -/
theorem runDevices_ok_spec (fs : FS) :
    ∀ (ds : List String) (st : RunState), ds.Nodup →
      (runDevices fs ds st).2 = true →
      ∀ d ∈ ds, ∃ m0, loadManifest fs st.store d = some m0 ∧
        alistGet ((runDevices fs ds st).1).store d =
          some (.valid (applyDevice fs d m0).1) ∧
        ((applyDevice fs d m0).2 = false →
          noteFor d ∈ ((runDevices fs ds st).1).output) := by
  intro ds
  induction ds with
  | nil => intro st _ _ d hd; exact absurd hd (List.not_mem_nil d)
  | cons e ds ih =>
      intro st hnd hok d hd
      have hnd' : ds.Nodup := (List.nodup_cons.mp hnd).2
      have he : e ∉ ds := (List.nodup_cons.mp hnd).1
      revert hok
      show (runDevices fs (e :: ds) st).2 = true → _
      unfold runDevices stepDevice
      cases hl : loadManifest fs st.store e with
      | none => intro hok; exact absurd hok (by simp)
      | some m0 =>
          cases hf : fs.fw with
          | none => intro hok; exact absurd hok (by simp)
          | some r =>
              dsimp only
              intro hok
              rcases List.mem_cons.mp hd with hde | hdds
              · subst hde
                refine ⟨m0, hl, ?_, ?_⟩
                · rw [runDevices_frame fs ds _ d he]
                  exact alistGet_set_self st.store d _
                · intro hfound
                  apply runDevices_output_mono
                  simp [hfound]
              · obtain ⟨m1, hm1, hrest⟩ :=
                  ih _ hnd' hok d hdds
                refine ⟨m1, ?_, hrest⟩
                rw [← hm1]
                exact (loadManifest_set_ne fs st.store e d _
                  (fun h => he (h ▸ hdds))).symm

theorem alistSet_absorb_gen {α : Type} (l : List (String × α)) (k : String)
    (v : α) (h : alistGet l k = some v) : alistSet l k v = l :=
  alistSet_absorb l k v h

/-- Re-running the device loop on the manifest store a first pass produced
leaves the store unchanged and repeats the first pass's verdict. -/
theorem runDevices_rerun (fs : FS) :
    ∀ (ds : List String), ds.Nodup → ∀ (st : RunState) (o : List String) (c : Nat),
      ((runDevices fs ds
          (RunState.mk ((runDevices fs ds st).1).store o c)).1).store =
        ((runDevices fs ds st).1).store ∧
      (runDevices fs ds
          (RunState.mk ((runDevices fs ds st).1).store o c)).2 =
        (runDevices fs ds st).2 := by
  intro ds
  induction ds with
  | nil => intro _ st o c; exact ⟨rfl, rfl⟩
  | cons e ds ih =>
      intro hnd st o c
      have hnd' : ds.Nodup := (List.nodup_cons.mp hnd).2
      have he : e ∉ ds := (List.nodup_cons.mp hnd).1
      have hrun : ∀ st' : RunState, runDevices fs (e :: ds) st' =
          match stepDevice fs st' e with
          | .error s => (s, false)
          | .ok s => runDevices fs ds s := fun _ => rfl
      have hsd : ∀ st' : RunState, stepDevice fs st' e =
          match loadManifest fs st'.store e with
          | none => .error st'
          | some m0 =>
              match fs.fw with
              | none => .error (RunState.mk st'.store (st'.output ++
                  (if (applyDevice fs e m0).2 then [] else [noteFor e]))
                  st'.count)
              | some _ => .ok (RunState.mk
                  (alistSet st'.store e (.valid (applyDevice fs e m0).1))
                  (st'.output ++
                    (if (applyDevice fs e m0).2 then [] else [noteFor e]) ++
                    [updatedMsg e])
                  (st'.count + 1)) := fun _ => rfl
      cases hstep : stepDevice fs st e with
      | error st1 =>
          have hst1 : st1.store = st.store := by
            have h := hstep
            rw [hsd st] at h
            revert h
            cases hl : loadManifest fs st.store e with
            | none => intro h; cases h; rfl
            | some m0 =>
                cases hf : fs.fw with
                | none => intro h; cases h; rfl
                | some r => intro h; cases h
          have hstep2 : ∃ st2, stepDevice fs
              (RunState.mk st1.store o c) e =
              .error st2 ∧ st2.store = st1.store := by
            rw [hsd (RunState.mk st1.store o c)]
            dsimp only
            rw [hst1]
            have h := hstep
            rw [hsd st] at h
            revert h
            cases hl : loadManifest fs st.store e with
            | none => intro _; exact ⟨_, rfl, rfl⟩
            | some m0 =>
                cases hf : fs.fw with
                | none => intro _; exact ⟨_, rfl, rfl⟩
                | some r => intro h; cases h
          obtain ⟨st2, h2, h2s⟩ := hstep2
          rw [hrun st, hstep]
          dsimp only
          rw [hrun (RunState.mk st1.store o c), h2]
          exact ⟨h2s, rfl⟩
      | ok st1 =>
          have h := hstep
          rw [hsd st] at h
          revert h
          cases hl : loadManifest fs st.store e with
          | none => intro h; cases h
          | some m0 =>
              cases hf : fs.fw with
              | none => intro h; cases h
              | some r =>
                  intro h
                  have hst1 : st1.store = alistSet st.store e
                      (.valid (applyDevice fs e m0).1) := by
                    cases h; rfl
                  have hget : alistGet ((runDevices fs ds st1).1).store e =
                      some (.valid (applyDevice fs e m0).1) := by
                    rw [runDevices_frame fs ds st1 e he, hst1]
                    exact alistGet_set_self st.store e _
                  have hload2 : loadManifest fs
                      ((runDevices fs ds st1).1).store e =
                      some (applyDevice fs e m0).1 := by
                    unfold loadManifest
                    rw [hf, hget]
                  have hstep3 : stepDevice fs
                      (RunState.mk ((runDevices fs ds st1).1).store o c) e =
                      .ok (RunState.mk ((runDevices fs ds st1).1).store
                        (o ++ (if (applyDevice fs e m0).2 then []
                          else [noteFor e]) ++ [updatedMsg e]) (c + 1)) := by
                    rw [hsd (RunState.mk ((runDevices fs ds st1).1).store o c)]
                    dsimp only
                    rw [hload2]
                    dsimp only
                    rw [hf]
                    dsimp only
                    rw [apply_idem fs e m0]
                    rw [alistSet_absorb_gen _ _ _ hget]
                  rw [hrun st, hstep]
                  dsimp only
                  rw [hrun (RunState.mk ((runDevices fs ds st1).1).store o c),
                    hstep3]
                  dsimp only
                  exact ih hnd' st1 _ _

/-! ### `setManifests` changes no directory tree -/

theorem fwDirOf_setManifests (fs : FS) (s : List (String × JsonFile))
    (d : String) : fwDirOf (setManifests fs s) d = fwDirOf fs d := by
  unfold fwDirOf setManifests
  cases fs.fw <;> rfl

theorem spDirOf_setManifests (fs : FS) (s : List (String × JsonFile))
    (d : String) : spDirOf (setManifests fs s) d = spDirOf fs d := rfl

theorem cfgDirOf_setManifests (fs : FS) (s : List (String × JsonFile))
    (d : String) : cfgDirOf (setManifests fs s) d = cfgDirOf fs d := rfl

theorem applyDevice_setManifests (fs : FS) (s : List (String × JsonFile))
    (d : String) (m0 : Manifest) :
    applyDevice (setManifests fs s) d m0 = applyDevice fs d m0 := by
  unfold applyDevice
  rw [fwDirOf_setManifests, spDirOf_setManifests, cfgDirOf_setManifests]

theorem loadManifest_setManifests (fs : FS) (s store : List (String × JsonFile))
    (d : String) :
    loadManifest (setManifests fs s) store d = loadManifest fs store d := by
  unfold loadManifest setManifests
  cases fs.fw <;> rfl

theorem stepDevice_setManifests (fs : FS) (s : List (String × JsonFile))
    (st : RunState) (d : String) :
    stepDevice (setManifests fs s) st d = stepDevice fs st d := by
  unfold stepDevice
  simp only [loadManifest_setManifests, applyDevice_setManifests]
  cases hfw : fs.fw <;> simp only [setManifests, hfw, Option.map]

theorem runDevices_setManifests (fs : FS) (s : List (String × JsonFile)) :
    ∀ (ds : List String) (st : RunState),
      runDevices (setManifests fs s) ds st = runDevices fs ds st := by
  intro ds
  induction ds with
  | nil => intro st; rfl
  | cons e ds ih =>
      intro st
      unfold runDevices
      rw [stepDevice_setManifests]
      cases stepDevice fs st e with
      | error st1 => rfl
      | ok st1 => exact ih st1

theorem discover_setManifests (fs : FS) (s : List (String × JsonFile)) :
    discover (setManifests fs s) = discover fs := by
  unfold discover setManifests rootNames
  cases fs.fw <;> rfl

/-! ### `sorted(set(...))` produces a duplicate-free list -/

theorem char_toNat_inj {a b : Char} (h : a.toNat = b.toNat) : a = b :=
  Char.eq_of_val_eq (UInt32.ext h)

theorem charListLt_irrefl : ∀ l : List Char, charListLt l l = false
  | [] => rfl
  | c :: r => by
      unfold charListLt
      rw [if_neg (Nat.lt_irrefl c.toNat), if_neg (Nat.lt_irrefl c.toNat)]
      exact charListLt_irrefl r

theorem charListLt_trans : ∀ a b c : List Char,
    charListLt a b = true → charListLt b c = true → charListLt a c = true
  | [], [], _, h1, _ => by simp [charListLt] at h1
  | [], _ :: _, [], _, h2 => by simp [charListLt] at h2
  | [], _ :: _, _ :: _, _, _ => rfl
  | _ :: _, [], _, h1, _ => by simp [charListLt] at h1
  | _ :: _, _ :: _, [], _, h2 => by simp [charListLt] at h2
  | c1 :: r1, c2 :: r2, c3 :: r3, h1, h2 => by
      unfold charListLt at h1 h2 ⊢
      by_cases h12 : c1.toNat < c2.toNat
      · by_cases h23 : c2.toNat < c3.toNat
        · rw [if_pos (Nat.lt_trans h12 h23)]
        · rw [if_neg h23] at h2
          by_cases h32 : c3.toNat < c2.toNat
          · rw [if_pos h32] at h2
            exact absurd h2 (by simp)
          · rw [if_pos (by omega : c1.toNat < c3.toNat)]
      · rw [if_neg h12] at h1
        by_cases h21 : c2.toNat < c1.toNat
        · rw [if_pos h21] at h1
          exact absurd h1 (by simp)
        · rw [if_neg h21] at h1
          by_cases h23 : c2.toNat < c3.toNat
          · rw [if_pos (by omega : c1.toNat < c3.toNat)]
          · rw [if_neg h23] at h2
            by_cases h32 : c3.toNat < c2.toNat
            · rw [if_pos h32] at h2
              exact absurd h2 (by simp)
            · rw [if_neg h32] at h2
              rw [if_neg (by omega : ¬c1.toNat < c3.toNat),
                if_neg (by omega : ¬c3.toNat < c1.toNat)]
              exact charListLt_trans r1 r2 r3 h1 h2

theorem charListLt_flip : ∀ a b : List Char, a ≠ b →
    charListLt a b = false → charListLt b a = true
  | [], [], h, _ => absurd rfl h
  | [], _ :: _, _, h2 => by simp [charListLt] at h2
  | _ :: _, [], _, _ => rfl
  | c1 :: r1, c2 :: r2, hne, h2 => by
      unfold charListLt at h2 ⊢
      by_cases h12 : c1.toNat < c2.toNat
      · rw [if_pos h12] at h2
        exact absurd h2 (by simp)
      · rw [if_neg h12] at h2
        by_cases h21 : c2.toNat < c1.toNat
        · rw [if_pos h21]
        · rw [if_neg h21] at h2
          have hceq : c1 = c2 := char_toNat_inj (by omega)
          subst hceq
          rw [if_neg h12, if_neg h21]
          have hrne : r1 ≠ r2 := by
            intro h
            exact hne (by rw [h])
          exact charListLt_flip r1 r2 hrne h2

theorem strLt_irrefl (s : String) : strLt s s = false :=
  charListLt_irrefl s.toList

theorem strLt_trans {a b c : String} (h1 : strLt a b = true)
    (h2 : strLt b c = true) : strLt a c = true :=
  charListLt_trans a.toList b.toList c.toList h1 h2

theorem strLt_flip {a b : String} (h : a ≠ b) (h2 : strLt a b = false) :
    strLt b a = true := by
  refine charListLt_flip a.toList b.toList ?_ h2
  intro hc
  exact h (congrArg String.mk hc)

theorem strLt_ne {a b : String} (h : strLt a b = true) : a ≠ b := by
  intro hc
  subst hc
  rw [strLt_irrefl] at h
  exact absurd h (by simp)

theorem mem_insertSorted (x a : String) :
    ∀ l : List String, a ∈ insertSorted x l ↔ a = x ∨ a ∈ l := by
  intro l
  induction l with
  | nil => simp [insertSorted]
  | cons y ys ih =>
      unfold insertSorted
      by_cases hxy : x = y
      · rw [if_pos hxy, hxy]
        simp only [List.mem_cons]
        tauto
      · rw [if_neg hxy]
        by_cases hlt : strLt x y = true
        · rw [if_pos hlt]
          simp only [List.mem_cons]
        · rw [if_neg hlt]
          simp only [List.mem_cons, ih]
          tauto

theorem pairwise_insertSorted (x : String) :
    ∀ l : List String, List.Pairwise (fun a b => strLt a b = true) l →
      List.Pairwise (fun a b => strLt a b = true) (insertSorted x l) := by
  intro l
  induction l with
  | nil => intro _; simp [insertSorted]
  | cons y ys ih =>
      intro hp
      have hy : ∀ a ∈ ys, strLt y a = true := (List.pairwise_cons.mp hp).1
      have hys : List.Pairwise (fun a b => strLt a b = true) ys :=
        (List.pairwise_cons.mp hp).2
      unfold insertSorted
      by_cases hxy : x = y
      · rw [if_pos hxy]; exact hp
      · rw [if_neg hxy]
        by_cases hlt : strLt x y = true
        · rw [if_pos hlt]
          refine List.pairwise_cons.mpr ⟨?_, hp⟩
          intro a ha
          rcases List.mem_cons.mp ha with h | h
          · subst h; exact hlt
          · exact strLt_trans hlt (hy a h)
        · rw [if_neg hlt]
          refine List.pairwise_cons.mpr ⟨?_, ih hys⟩
          intro a ha
          rcases (mem_insertSorted x a ys).mp ha with h | h
          · rw [h]
            exact strLt_flip hxy (Bool.eq_false_iff.mpr hlt)
          · exact hy a h

theorem sortDedup_pairwise (l : List String) :
    List.Pairwise (fun a b => strLt a b = true) (sortDedup l) := by
  unfold sortDedup
  induction l with
  | nil => simp
  | cons x xs ih => exact pairwise_insertSorted x _ ih

theorem sortDedup_nodup (l : List String) : (sortDedup l).Nodup :=
  (sortDedup_pairwise l).imp (fun h => strLt_ne h)

theorem discover_nodup (fs : FS) : (discover fs).Nodup :=
  sortDedup_nodup _

/-! ### Aborted runs: completed prefix kept, rest untouched -/

/-- When the pre-existing manifest of device `d` is malformed and every
device sorted before it loads fine, the run dies at `d`: devices of the
prefix keep their freshly written manifests, everything else (including `d`
itself) is exactly as before the run. -/
theorem runDevices_abort_spec (fs : FS) (r : FwRoot) (hfw : fs.fw = some r)
    (d : String) :
    ∀ (ds1 : List String) (ds2 : List String) (st : RunState),
      (ds1 ++ d :: ds2).Nodup →
      (∀ e ∈ ds1, loadManifest fs st.store e ≠ none) →
      alistGet st.store d = some .malformed →
      (runDevices fs (ds1 ++ d :: ds2) st).2 = false ∧
      (∀ e ∈ ds1, ∃ m0, loadManifest fs st.store e = some m0 ∧
        alistGet ((runDevices fs (ds1 ++ d :: ds2) st).1).store e =
          some (.valid (applyDevice fs e m0).1)) ∧
      (∀ x, x ∉ ds1 →
        alistGet ((runDevices fs (ds1 ++ d :: ds2) st).1).store x =
          alistGet st.store x) := by
  intro ds1
  induction ds1 with
  | nil =>
      intro ds2 st _ _ hmal
      have hload : loadManifest fs st.store d = none := by
        unfold loadManifest
        rw [hfw, hmal]
      have hrun : runDevices fs ([] ++ d :: ds2) st = (st, false) := by
        show runDevices fs (d :: ds2) st = (st, false)
        have : stepDevice fs st d = .error st := by
          unfold stepDevice
          rw [hload]
        rw [runDevices, this]
      rw [hrun]
      exact ⟨rfl, fun e he => absurd he (List.not_mem_nil e),
        fun x _ => rfl⟩
  | cons e ds1 ih =>
      intro ds2 st hnd hload hmal
      have hne : e ∉ ds1 ++ d :: ds2 := (List.nodup_cons.mp hnd).1
      have hnd' : (ds1 ++ d :: ds2).Nodup := (List.nodup_cons.mp hnd).2
      have hed : e ≠ d := by
        intro h
        apply hne
        apply List.mem_append_right
        rw [h]
        exact List.mem_cons_self d ds2
      obtain ⟨m0, hm0⟩ : ∃ m0, loadManifest fs st.store e = some m0 := by
        cases hl : loadManifest fs st.store e with
        | none => exact absurd hl (hload e (List.mem_cons_self e _))
        | some m => exact ⟨m, rfl⟩
      have hstep : stepDevice fs st e = .ok (RunState.mk
          (alistSet st.store e (.valid (applyDevice fs e m0).1))
          (st.output ++
            (if (applyDevice fs e m0).2 then [] else [noteFor e]) ++
            [updatedMsg e])
          (st.count + 1)) := by
        unfold stepDevice
        rw [hm0, hfw]
      have hrun : runDevices fs ((e :: ds1) ++ d :: ds2) st =
          runDevices fs (ds1 ++ d :: ds2) (RunState.mk
            (alistSet st.store e (.valid (applyDevice fs e m0).1))
            (st.output ++
              (if (applyDevice fs e m0).2 then [] else [noteFor e]) ++
              [updatedMsg e])
            (st.count + 1)) := by
        show runDevices fs (e :: (ds1 ++ d :: ds2)) st = _
        rw [runDevices, hstep]
      set st' : RunState := RunState.mk
        (alistSet st.store e (.valid (applyDevice fs e m0).1))
        (st.output ++
          (if (applyDevice fs e m0).2 then [] else [noteFor e]) ++
          [updatedMsg e])
        (st.count + 1) with hst'
      have hload' : ∀ x ∈ ds1, loadManifest fs st'.store x =
          loadManifest fs st.store x := by
        intro x hx
        have hex : e ≠ x := by
          intro h
          exact hne (h ▸ List.mem_append_left _ hx)
        rw [hst']
        exact loadManifest_set_ne fs st.store e x _ hex
      have hmal' : alistGet st'.store d = some .malformed := by
        rw [hst']
        show alistGet (alistSet st.store e _) d = some .malformed
        rw [alistGet_set_ne st.store e d _ hed]
        exact hmal
      obtain ⟨hok, hpre, hrest⟩ := ih ds2 st' hnd'
        (fun x hx => (hload' x hx).symm ▸ hload x (List.mem_cons_of_mem e hx))
        hmal'
      refine ⟨by rw [hrun]; exact hok, ?_, ?_⟩
      · intro x hx
        rcases List.mem_cons.mp hx with hxe | hx1
        · subst hxe
          refine ⟨m0, hm0, ?_⟩
          rw [hrun]
          have hnotin : x ∉ ds1 := fun h =>
            hne (List.mem_append_left _ h)
          rw [hrest x hnotin, hst']
          exact alistGet_set_self st.store x _
        · obtain ⟨m1, hm1, hget⟩ := hpre x hx1
          refine ⟨m1, ?_, by rw [hrun]; exact hget⟩
          rw [← hload' x hx1]
          exact hm1
      · intro x hx
        have hx1 : x ∉ ds1 := fun h => hx (List.mem_cons_of_mem e h)
        have hxe : x ≠ e := fun h => hx (h ▸ List.mem_cons_self e ds1)
        rw [hrun, hrest x hx1, hst']
        exact alistGet_set_ne st.store e x _ (Ne.symm hxe)

/-! ### Noninterference machinery: runs over trees that differ only in one
device's binary contents -/

/-- Two directory entries with the same name, kind, and binary-presence —
only the binary's bytes may differ. -/
def entryShapeEq (e1 e2 : DirEntry) : Prop :=
  e1.name = e2.name ∧ e1.isDir = e2.isDir ∧ e1.bin.isSome = e2.bin.isSome

/-- Two optional device listings of the same shape. -/
def dirListRel : Option (List DirEntry) → Option (List DirEntry) → Prop
  | none, none => True
  | some es1, some es2 => List.Forall₂ entryShapeEq es1 es2
  | _, _ => False

def bestRel : Option ((Nat × Nat × Nat) × String × DirEntry) →
    Option ((Nat × Nat × Nat) × String × DirEntry) → Prop
  | none, none => True
  | some b1, some b2 =>
      b1.1 = b2.1 ∧ b1.2.1 = b2.2.1 ∧ entryShapeEq b1.2.2 b2.2.2
  | _, _ => False

theorem lvdLoop_rel :
    ∀ {es1 es2 : List DirEntry}, List.Forall₂ entryShapeEq es1 es2 →
      ∀ {b1 b2}, bestRel b1 b2 →
        bestRel (lvdLoop b1 es1) (lvdLoop b2 es2) := by
  intro es1 es2 hf
  induction hf with
  | nil => intro b1 b2 hb; exact hb
  | cons hsh htail ih =>
      intro b1 b2 hb
      rename_i e1 e2 es1' es2'
      obtain ⟨hn, hd, hbin⟩ := hsh
      show bestRel (lvdLoop b1 (e1 :: es1')) (lvdLoop b2 (e2 :: es2'))
      unfold lvdLoop
      rw [hd, hn]
      cases hdir : e2.isDir with
      | false =>
          rw [if_neg Bool.false_ne_true, if_neg Bool.false_ne_true]
          exact ih hb
      | true =>
          rw [if_pos rfl, if_pos rfl]
          cases hm : matchVer e2.name with
          | none => dsimp only; exact ih hb
          | some p =>
              obtain ⟨t, v⟩ := p
              dsimp only
              cases b1 with
              | none =>
                  cases b2 with
                  | none => dsimp only; exact ih ⟨rfl, rfl, hn, hd, hbin⟩
                  | some b2' => exact absurd hb (by simp [bestRel])
              | some b1' =>
                  cases b2 with
                  | none => exact absurd hb (by simp [bestRel])
                  | some b2' =>
                      obtain ⟨ht, hv, hsh'⟩ := hb
                      dsimp only
                      rw [ht]
                      by_cases htg : tupGt t b2'.1 = true
                      · rw [if_pos htg, if_pos htg]
                        exact ih ⟨rfl, rfl, hn, hd, hbin⟩
                      · rw [if_neg htg, if_neg htg]
                        exact ih ⟨ht, hv, hsh'⟩

/-- Relation between the `latest_version_dir` results of two shape-equal
listings. -/
def lvdRel : Option (String × DirEntry) → Option (String × DirEntry) → Prop
  | none, none => True
  | some (v1, e1), some (v2, e2) => v1 = v2 ∧ entryShapeEq e1 e2
  | _, _ => False

theorem latest_version_dir_rel {es1 es2 : List DirEntry}
    (h : List.Forall₂ entryShapeEq es1 es2) :
    lvdRel (latest_version_dir es1) (latest_version_dir es2) := by
  unfold latest_version_dir
  have hb := @lvdLoop_rel _ _ h none none trivial
  cases h1 : lvdLoop none es1 with
  | none =>
      cases h2 : lvdLoop none es2 with
      | none => exact trivial
      | some b2 => rw [h1, h2] at hb; exact absurd hb (by simp [bestRel])
  | some b1 =>
      cases h2 : lvdLoop none es2 with
      | none => rw [h1, h2] at hb; exact absurd hb (by simp [bestRel])
      | some b2 =>
          rw [h1, h2] at hb
          obtain ⟨_, hv, hsh⟩ := hb
          exact ⟨hv, hsh⟩

/-- Relation between two optional `firmware` record values: either equal,
or both objects with the same keys and the same `url`. -/
def fwValRel : Option JVal → Option JVal → Prop
  | some (.obj o1), some (.obj o2) =>
      o1.map Prod.fst = o2.map Prod.fst ∧ alistGet o1 "url" = alistGet o2 "url"
  | v1, v2 => v1 = v2

theorem fwValRel_refl : ∀ v : Option JVal, fwValRel v v := by
  intro v
  rcases v with _ | (s | n | o) <;> simp [fwValRel]

def fwOutcomeRel : Option (String × JVal) → Option (String × JVal) → Prop
  | none, none => True
  | some (v1, F1), some (v2, F2) => v1 = v2 ∧ fwValRel (some F1) (some F2)
  | _, _ => False

theorem fwEntryOutcome_rel (device : String) {es1 es2 : List DirEntry}
    (h : List.Forall₂ entryShapeEq es1 es2) :
    fwOutcomeRel (fwEntryOutcome device es1) (fwEntryOutcome device es2) := by
  unfold fwEntryOutcome
  have hl := latest_version_dir_rel h
  cases h1 : latest_version_dir es1 with
  | none =>
      cases h2 : latest_version_dir es2 with
      | none => exact trivial
      | some p => rw [h1, h2] at hl; exact absurd hl (by simp [lvdRel])
  | some p1 =>
      cases h2 : latest_version_dir es2 with
      | none =>
          rw [h1, h2] at hl
          obtain ⟨v1, e1⟩ := p1
          exact absurd hl (by simp [lvdRel])
      | some p2 =>
          rw [h1, h2] at hl
          obtain ⟨v1, e1⟩ := p1
          obtain ⟨v2, e2⟩ := p2
          obtain ⟨hv, hn, _hd, hbin⟩ := hl
          dsimp only
          cases hb1 : e1.bin with
          | none =>
              cases hb2 : e2.bin with
              | none => exact trivial
              | some c2 =>
                  rw [hb1, hb2] at hbin
                  exact absurd hbin (by simp)
          | some c1 =>
              cases hb2 : e2.bin with
              | none =>
                  rw [hb1, hb2] at hbin
                  exact absurd hbin (by simp)
              | some c2 =>
                  dsimp only
                  refine ⟨hv, ?_, ?_⟩
                  · simp [fwJson]
                  · simp [fwJson, alistGet, hn]

theorem fwOutcome_rel (fs1 fs2 : FS) (d : String)
    (h : dirListRel (fwDirOf fs1 d) (fwDirOf fs2 d)) :
    fwOutcomeRel (fwOutcome fs1 d) (fwOutcome fs2 d) := by
  unfold fwOutcome
  cases h1 : fwDirOf fs1 d with
  | none =>
      cases h2 : fwDirOf fs2 d with
      | none => exact trivial
      | some es2 => rw [h1, h2] at h; exact absurd h (by simp [dirListRel])
  | some es1 =>
      cases h2 : fwDirOf fs2 d with
      | none => rw [h1, h2] at h; exact absurd h (by simp [dirListRel])
      | some es2 =>
          rw [h1, h2] at h
          exact fwEntryOutcome_rel d h

/-- Two manifests that agree everywhere except possibly in the value under
`"firmware"`, where they are still `fwValRel`-related. -/
def manifestRel (m1 m2 : Manifest) : Prop :=
  (∀ k, k ≠ "firmware" → dictGet m1 k = dictGet m2 k) ∧
  fwValRel (dictGet m1 "firmware") (dictGet m2 "firmware")

theorem manifestRel_refl (m : Manifest) : manifestRel m m :=
  ⟨fun _ _ => rfl, fwValRel_refl _⟩

theorem manifestRel_set (m1 m2 : Manifest) (k : String) (v : JVal)
    (hk : k ≠ "firmware") (h : manifestRel m1 m2) :
    manifestRel (dictSet m1 k v) (dictSet m2 k v) := by
  obtain ⟨hoff, hfw⟩ := h
  constructor
  · intro k' hk'
    by_cases hkk : k = k'
    · subst hkk
      rw [dictGet_set_self, dictGet_set_self]
    · rw [dictGet_set_ne _ _ _ _ hkk, dictGet_set_ne _ _ _ _ hkk]
      exact hoff k' hk'
  · rw [dictGet_set_ne _ _ _ _ hk, dictGet_set_ne _ _ _ _ hk]
    exact hfw

theorem applyDevice_congr (fs1 fs2 : FS) (d : String)
    (h1 : fwDirOf fs1 d = fwDirOf fs2 d) (h2 : spDirOf fs1 d = spDirOf fs2 d)
    (h3 : cfgDirOf fs1 d = cfgDirOf fs2 d) (m : Manifest) :
    applyDevice fs1 d m = applyDevice fs2 d m := by
  unfold applyDevice
  rw [h1, h2, h3]

/-- `applyDevice` over two filesystems whose firmware listings for `d` are
shape-equal (and whose spiffs/config data agree) yields the same `found_fw`
verdict and `manifestRel`-related manifests. -/
theorem applyDevice_rel (fs1 fs2 : FS) (d : String)
    (hfw : dirListRel (fwDirOf fs1 d) (fwDirOf fs2 d))
    (hsp : spDirOf fs1 d = spDirOf fs2 d)
    (hcfg : cfgDirOf fs1 d = cfgDirOf fs2 d) (m : Manifest) :
    (applyDevice fs1 d m).2 = (applyDevice fs2 d m).2 ∧
    manifestRel (applyDevice fs1 d m).1 (applyDevice fs2 d m).1 := by
  have hspo : spOutcome fs1 d = spOutcome fs2 d := by
    unfold spOutcome; rw [hsp]
  have hcfgo : cfgOutcome fs1 d = cfgOutcome fs2 d := by
    unfold cfgOutcome; rw [hcfg]
  have hfo := fwOutcome_rel fs1 fs2 d hfw
  rw [applyDevice_eq, applyDevice_eq]
  unfold applyDeviceC
  dsimp only
  rw [hspo, hcfgo]
  cases hf1 : fwOutcome fs1 d with
  | none =>
      cases hf2 : fwOutcome fs2 d with
      | some p => rw [hf1, hf2] at hfo; exact absurd hfo (by simp [fwOutcomeRel])
      | none => exact ⟨rfl, manifestRel_refl _⟩
  | some p1 =>
      cases hf2 : fwOutcome fs2 d with
      | none =>
          rw [hf1, hf2] at hfo
          obtain ⟨v1, F1⟩ := p1
          exact absurd hfo (by simp [fwOutcomeRel])
      | some p2 =>
          rw [hf1, hf2] at hfo
          obtain ⟨v1, F1⟩ := p1
          obtain ⟨v2, F2⟩ := p2
          obtain ⟨hv, hF⟩ := hfo
          subst hv
          dsimp only
          refine ⟨rfl, ?_⟩
          have hbase : manifestRel
              (dictSet (dictSet (defaultsOf d m) "version" (.str v1))
                "firmware" F1)
              (dictSet (dictSet (defaultsOf d m) "version" (.str v1))
                "firmware" F2) := by
            constructor
            · intro k hk
              rw [dictGet_set_ne _ _ _ _ (Ne.symm hk),
                dictGet_set_ne _ _ _ _ (Ne.symm hk)]
            · rw [dictGet_set_self, dictGet_set_self]
              exact hF
          cases hso : spOutcome fs2 d with
          | none =>
              cases hco : cfgOutcome fs2 d with
              | none => exact hbase
              | some C =>
                  exact manifestRel_set _ _ _ _ (by decide) hbase
          | some S =>
              have hsp2 := manifestRel_set _ _ "spiffs" S (by decide) hbase
              cases hco : cfgOutcome fs2 d with
              | none => exact hsp2
              | some C => exact manifestRel_set _ _ _ _ (by decide) hsp2

/-- Relation between the manifest files stored for the changed device:
either identical, or both valid with `manifestRel`-related contents. -/
def jsonFileRel : Option JsonFile → Option JsonFile → Prop
  | some (.valid m1), some (.valid m2) => manifestRel m1 m2
  | f1, f2 => f1 = f2

theorem jsonFileRel_refl : ∀ f : Option JsonFile, jsonFileRel f f := by
  intro f
  rcases f with _ | (m | _) <;> simp [jsonFileRel]
  exact manifestRel_refl m

theorem jsonFileRel_of_eq {f1 f2 : Option JsonFile} (h : f1 = f2) :
    jsonFileRel f1 f2 := h ▸ jsonFileRel_refl f1

/-- Two runs over filesystems that differ only in the byte contents of the
binaries in device `d`'s firmware listing write identical manifest files
for every device other than `d`, and `manifestRel`-related files for `d`. -/
theorem runDevices_parallel (fs1 fs2 : FS) (r1 r2 : FwRoot) (d : String)
    (hfw1 : fs1.fw = some r1) (hfw2 : fs2.fw = some r2)
    (hsp : fs1.sp = fs2.sp) (hcfg : fs1.cfg = fs2.cfg)
    (hoff : ∀ e, e ≠ d → alistGet r1.deviceDirs e = alistGet r2.deviceDirs e)
    (hrel : dirListRel (alistGet r1.deviceDirs d)
      (alistGet r2.deviceDirs d)) :
    ∀ (ds : List String), ds.Nodup →
      ∀ (st1 st2 : RunState),
        (∀ e, e ≠ d → alistGet st1.store e = alistGet st2.store e) →
        (d ∈ ds → alistGet st1.store d = alistGet st2.store d) →
        (d ∉ ds → jsonFileRel (alistGet st1.store d) (alistGet st2.store d)) →
        (∀ e, e ≠ d →
          alistGet ((runDevices fs1 ds st1).1).store e =
            alistGet ((runDevices fs2 ds st2).1).store e) ∧
        jsonFileRel (alistGet ((runDevices fs1 ds st1).1).store d)
          (alistGet ((runDevices fs2 ds st2).1).store d) := by
  have hspdir : ∀ x, spDirOf fs1 x = spDirOf fs2 x := by
    intro x; unfold spDirOf; rw [hsp]
  have hcfgdir : ∀ x, cfgDirOf fs1 x = cfgDirOf fs2 x := by
    intro x; unfold cfgDirOf; rw [hcfg]
  have hfwdir1 : ∀ x, fwDirOf fs1 x = alistGet r1.deviceDirs x := by
    intro x; unfold fwDirOf; rw [hfw1]; rfl
  have hfwdir2 : ∀ x, fwDirOf fs2 x = alistGet r2.deviceDirs x := by
    intro x; unfold fwDirOf; rw [hfw2]; rfl
  intro ds
  induction ds with
  | nil =>
      intro _ st1 st2 hoffst _ hdrel
      exact ⟨hoffst, hdrel (List.not_mem_nil d)⟩
  | cons e ds ih =>
      intro hnd st1 st2 hoffst hdin hdrel
      have hnd' : ds.Nodup := (List.nodup_cons.mp hnd).2
      have hends : e ∉ ds := (List.nodup_cons.mp hnd).1
      have hgete : alistGet st1.store e = alistGet st2.store e := by
        by_cases hed : e = d
        · subst hed; exact hdin (List.mem_cons_self e ds)
        · exact hoffst e hed
      have hrun1 : runDevices fs1 (e :: ds) st1 =
          match stepDevice fs1 st1 e with
          | .error s => (s, false)
          | .ok s => runDevices fs1 ds s := rfl
      have hrun2 : runDevices fs2 (e :: ds) st2 =
          match stepDevice fs2 st2 e with
          | .error s => (s, false)
          | .ok s => runDevices fs2 ds s := rfl
      have hload1 : loadManifest fs1 st1.store e =
          match alistGet st1.store e with
          | none => some []
          | some (.valid m) => some m
          | some .malformed => none := by
        unfold loadManifest
        rw [hfw1]
      have hload2 : loadManifest fs2 st2.store e =
          match alistGet st2.store e with
          | none => some []
          | some (.valid m) => some m
          | some .malformed => none := by
        unfold loadManifest
        rw [hfw2]
      have hsd1 : stepDevice fs1 st1 e =
          match loadManifest fs1 st1.store e with
          | none => .error st1
          | some m0 => .ok (RunState.mk
              (alistSet st1.store e (.valid (applyDevice fs1 e m0).1))
              (st1.output ++
                (if (applyDevice fs1 e m0).2 then [] else [noteFor e]) ++
                [updatedMsg e])
              (st1.count + 1)) := by
        unfold stepDevice
        cases loadManifest fs1 st1.store e with
        | none => rfl
        | some m0 => dsimp only; rw [hfw1]
      have hsd2 : stepDevice fs2 st2 e =
          match loadManifest fs2 st2.store e with
          | none => .error st2
          | some m0 => .ok (RunState.mk
              (alistSet st2.store e (.valid (applyDevice fs2 e m0).1))
              (st2.output ++
                (if (applyDevice fs2 e m0).2 then [] else [noteFor e]) ++
                [updatedMsg e])
              (st2.count + 1)) := by
        unfold stepDevice
        cases loadManifest fs2 st2.store e with
        | none => rfl
        | some m0 => dsimp only; rw [hfw2]
      rw [hrun1, hrun2, hsd1, hsd2, hload1, hload2, ← hgete]
      cases hg : alistGet st1.store e with
      | some f =>
          cases f with
          | malformed =>
              dsimp only
              refine ⟨hoffst, ?_⟩
              by_cases hdmem : d ∈ e :: ds
              · exact jsonFileRel_of_eq (hdin hdmem)
              · exact hdrel hdmem
          | valid m0 =>
              dsimp only
              by_cases hed : e = d
              · subst hed
                have hdds : e ∉ ds := hends
                obtain ⟨hsnd, hmrel⟩ := applyDevice_rel fs1 fs2 e
                  (by rw [hfwdir1, hfwdir2]; exact hrel)
                  (hspdir e) (hcfgdir e) m0
                refine ih hnd' _ _ ?_ ?_ ?_
                · intro x hx
                  dsimp only
                  rw [alistGet_set_ne _ _ _ _ (Ne.symm hx),
                    alistGet_set_ne _ _ _ _ (Ne.symm hx)]
                  exact hoffst x hx
                · intro hmem; exact absurd hmem hdds
                · intro _
                  dsimp only
                  rw [alistGet_set_self, alistGet_set_self]
                  exact hmrel
              · have hfloc : fwDirOf fs1 e = fwDirOf fs2 e := by
                  rw [hfwdir1, hfwdir2]; exact hoff e hed
                have happ : applyDevice fs1 e m0 = applyDevice fs2 e m0 :=
                  applyDevice_congr fs1 fs2 e hfloc (hspdir e) (hcfgdir e) m0
                rw [happ]
                refine ih hnd' _ _ ?_ ?_ ?_
                · intro x hx
                  dsimp only
                  by_cases hxe : x = e
                  · subst hxe
                    rw [alistGet_set_self, alistGet_set_self]
                  · rw [alistGet_set_ne _ _ _ _ (Ne.symm hxe),
                      alistGet_set_ne _ _ _ _ (Ne.symm hxe)]
                    exact hoffst x hx
                · intro hmem
                  dsimp only
                  rw [alistGet_set_ne _ _ _ _ hed,
                    alistGet_set_ne _ _ _ _ hed]
                  exact hdin (List.mem_cons_of_mem e hmem)
                · intro hmem
                  dsimp only
                  rw [alistGet_set_ne _ _ _ _ hed,
                    alistGet_set_ne _ _ _ _ hed]
                  have hdne : d ∉ e :: ds := by
                    intro hc
                    rcases List.mem_cons.mp hc with hc1 | hc2
                    · exact hed hc1.symm
                    · exact hmem hc2
                  exact hdrel hdne
      | none =>
          dsimp only
          by_cases hed : e = d
          · subst hed
            have hdds : e ∉ ds := hends
            obtain ⟨hsnd, hmrel⟩ := applyDevice_rel fs1 fs2 e
              (by rw [hfwdir1, hfwdir2]; exact hrel)
              (hspdir e) (hcfgdir e) []
            refine ih hnd' _ _ ?_ ?_ ?_
            · intro x hx
              dsimp only
              rw [alistGet_set_ne _ _ _ _ (Ne.symm hx),
                alistGet_set_ne _ _ _ _ (Ne.symm hx)]
              exact hoffst x hx
            · intro hmem; exact absurd hmem hdds
            · intro _
              dsimp only
              rw [alistGet_set_self, alistGet_set_self]
              exact hmrel
          · have hfloc : fwDirOf fs1 e = fwDirOf fs2 e := by
              rw [hfwdir1, hfwdir2]; exact hoff e hed
            have happ : applyDevice fs1 e [] = applyDevice fs2 e [] :=
              applyDevice_congr fs1 fs2 e hfloc (hspdir e) (hcfgdir e) []
            rw [happ]
            refine ih hnd' _ _ ?_ ?_ ?_
            · intro x hx
              dsimp only
              by_cases hxe : x = e
              · subst hxe
                rw [alistGet_set_self, alistGet_set_self]
              · rw [alistGet_set_ne _ _ _ _ (Ne.symm hxe),
                  alistGet_set_ne _ _ _ _ (Ne.symm hxe)]
                exact hoffst x hx
            · intro hmem
              dsimp only
              rw [alistGet_set_ne _ _ _ _ hed,
                alistGet_set_ne _ _ _ _ hed]
              exact hdin (List.mem_cons_of_mem e hmem)
            · intro hmem
              dsimp only
              rw [alistGet_set_ne _ _ _ _ hed,
                alistGet_set_ne _ _ _ _ hed]
              have hdne : d ∉ e :: ds := by
                intro hc
                rcases List.mem_cons.mp hc with hc1 | hc2
                · exact hed hc1.symm
                · exact hmem hc2
              exact hdrel hdne

/-! ### The hex digest: 64 lowercase hex characters of the full contents -/

/-- A lowercase hexadecimal digit. -/
def isLowerHexChar (c : Char) : Prop := c.isDigit = true ∨ ('a' ≤ c ∧ c ≤ 'f')

instance (c : Char) : Decidable (isLowerHexChar c) := by
  unfold isLowerHexChar
  infer_instance

theorem hexChar_lower (n : Nat) : isLowerHexChar (hexChar n) := by
  by_cases h : n < 16
  · interval_cases n <;> decide
  · unfold hexChar
    rw [if_neg (by omega), if_neg h]
    decide

theorem toHexFixed_length : ∀ (k n : Nat), (toHexFixed k n).length = k := by
  intro k
  induction k with
  | zero => intro n; rfl
  | succ k ih =>
      intro n
      unfold toHexFixed
      rw [List.length_append, ih]
      rfl

theorem toHexFixed_lower : ∀ (k n : Nat), ∀ c ∈ toHexFixed k n,
    isLowerHexChar c := by
  intro k
  induction k with
  | zero => intro n c hc; exact absurd hc (List.not_mem_nil c)
  | succ k ih =>
      intro n c hc
      unfold toHexFixed at hc
      rcases List.mem_append.mp hc with h | h
      · exact ih _ c h
      · rcases List.mem_singleton.mp h with rfl
        exact hexChar_lower _

theorem compressStep_length (st : List Nat) (kw : Nat × Nat) :
    (compressStep st kw).length = st.length := by
  unfold compressStep
  split
  · rfl
  · rfl

theorem foldl_compressStep_length (l : List (Nat × Nat)) :
    ∀ st : List Nat, (l.foldl compressStep st).length = st.length := by
  induction l with
  | nil => intro st; rfl
  | cons kw l ih =>
      intro st
      rw [List.foldl_cons, ih, compressStep_length]

theorem compressBlock_length (H : List Nat) (b : List Nat)
    (hH : H.length = 8) : (compressBlock H b).length = 8 := by
  unfold compressBlock
  rw [List.length_zipWith, foldl_compressStep_length, hH]
  rfl

theorem foldl_compressBlock_length (bs : List (List Nat)) :
    ∀ H : List Nat, H.length = 8 → (bs.foldl compressBlock H).length = 8 := by
  induction bs with
  | nil => intro H hH; exact hH
  | cons b bs ih =>
      intro H hH
      rw [List.foldl_cons]
      exact ih _ (compressBlock_length H b hH)

theorem sha256Words_length (msg : List Nat) : (sha256Words msg).length = 8 :=
  foldl_compressBlock_length _ H256 rfl

theorem flatten_hex_length : ∀ ws : List Nat,
    ((ws.map (toHexFixed 8)).flatten).length = 8 * ws.length := by
  intro ws
  induction ws with
  | nil => rfl
  | cons w ws ih =>
      rw [List.map_cons, List.flatten_cons, List.length_append, ih,
        toHexFixed_length, List.length_cons]
      ring

/-- The hex digest always has exactly 64 characters. -/
theorem sha256hex_length (msg : List Nat) : (sha256hex msg).length = 64 := by
  unfold sha256hex
  show ((sha256Words msg).map (toHexFixed 8)).flatten.length = 64
  rw [flatten_hex_length, sha256Words_length]

/-- Every character of the hex digest is a lowercase hex digit. -/
theorem sha256hex_lower (msg : List Nat) :
    ∀ c ∈ (sha256hex msg).toList, isLowerHexChar c := by
  intro c hc
  unfold sha256hex at hc
  obtain ⟨l, hl, hcl⟩ := List.mem_flatten.mp hc
  obtain ⟨w, _, hw⟩ := List.mem_map.mp hl
  exact toHexFixed_lower 8 w c (hw ▸ hcl)

theorem foldl_append_eq_flatten {α : Type} :
    ∀ (ls : List (List α)) (acc : List α),
      ls.foldl (fun a c => a ++ c) acc = acc ++ ls.flatten := by
  intro ls
  induction ls with
  | nil => intro acc; simp
  | cons l ls ih =>
      intro acc
      rw [List.foldl_cons, ih, List.flatten_cons, List.append_assoc]

/-- Feeding the 65536-byte read chunks one by one to the running hash
digests exactly the file's full contents. -/
theorem sha256_of_eq (contents : List Nat) :
    sha256_of contents = sha256hex contents := by
  unfold sha256_of
  rw [foldl_append_eq_flatten, List.nil_append,
    chunksOf_flatten 65536 (by omega) contents]

theorem string_mk_toList (s : String) : String.mk s.toList = s := by
  cases s
  rfl

/-- A name accepted by the version pattern is exactly `"v"` followed by the
captured version string. -/
theorem matchVer_name (s : String) (t : Nat × Nat × Nat) (v : String)
    (h : matchVer s = some (t, v)) : s = "v" ++ v := by
  unfold matchVer at h
  split at h
  · rename_i rest heq
    dsimp only at h
    split at h
    · exact absurd h (by simp)
    · split at h
      · split at h
        · exact absurd h (by simp)
        · split at h
          · split at h
            · exact absurd h (by simp)
            · split at h
              · rw [Option.some_inj] at h
                have hv : v = String.mk rest := (congrArg Prod.snd h).symm
                have hs : s = String.mk ('v' :: rest) := by
                  rw [← string_mk_toList s, heq]
                rw [hs, hv]
                rfl
              · exact absurd h (by simp)
          · exact absurd h (by simp)
      · exact absurd h (by simp)
  · exact absurd h (by simp)

/-! ### Selection properties of `latest_version_dir` -/

theorem tupGt_iff (a b : Nat × Nat × Nat) :
    tupGt a b = true ↔
      (b.1 < a.1 ∨ (a.1 = b.1 ∧ (b.2.1 < a.2.1 ∨
        (a.2.1 = b.2.1 ∧ b.2.2 < a.2.2)))) := by
  obtain ⟨a1, a2, a3⟩ := a
  obtain ⟨b1, b2, b3⟩ := b
  simp [tupGt, Bool.or_eq_true, Bool.and_eq_true, decide_eq_true_eq]

theorem tupGt_irrefl (a : Nat × Nat × Nat) : tupGt a a = false := by
  rw [Bool.eq_false_iff]
  intro h
  rw [tupGt_iff] at h
  omega

theorem tupGt_le_trans {a b c : Nat × Nat × Nat} (h1 : tupGt a b = false)
    (h2 : tupGt b c = false) : tupGt a c = false := by
  simp only [Bool.eq_false_iff, Ne, tupGt_iff] at h1 h2 ⊢
  omega

theorem tupGt_lt_le {a b c : Nat × Nat × Nat} (h1 : tupGt b a = true)
    (h2 : tupGt b c = false) : tupGt a c = false := by
  rw [tupGt_iff] at h1
  simp only [Bool.eq_false_iff, Ne, tupGt_iff] at h2 ⊢
  omega

theorem lvdLoop_some_ne_none :
    ∀ (es : List DirEntry) (b : (Nat × Nat × Nat) × String × DirEntry),
      lvdLoop (some b) es ≠ none := by
  intro es
  induction es with
  | nil => intro b h; exact Option.noConfusion h
  | cons e es ih =>
      intro b
      unfold lvdLoop
      by_cases hd : e.isDir = true
      · rw [if_pos hd]
        cases hm : matchVer e.name with
        | none => exact ih b
        | some p =>
            obtain ⟨t, v⟩ := p
            dsimp only
            by_cases htg : tupGt t b.1 = true
            · rw [if_pos htg]; exact ih _
            · rw [if_neg htg]; exact ih _
      · rw [if_neg hd]; exact ih b

theorem lvdLoop_none_iff :
    ∀ (es : List DirEntry) (best : Option ((Nat × Nat × Nat) × String × DirEntry)),
      (lvdLoop best es = none ↔
        (best = none ∧ ∀ e ∈ es, e.isDir = true → matchVer e.name = none)) := by
  intro es
  induction es with
  | nil =>
      intro best
      constructor
      · intro h; exact ⟨h, fun e he => absurd he (List.not_mem_nil e)⟩
      · intro h; exact h.1
  | cons e es ih =>
      intro best
      unfold lvdLoop
      by_cases hd : e.isDir = true
      · rw [if_pos hd]
        cases hm : matchVer e.name with
        | none =>
            dsimp only
            rw [ih best]
            constructor
            · rintro ⟨h1, h2⟩
              refine ⟨h1, ?_⟩
              intro e' he' hd'
              rcases List.mem_cons.mp he' with rfl | he''
              · exact hm
              · exact h2 e' he'' hd'
            · rintro ⟨h1, h2⟩
              exact ⟨h1, fun e' he' hd' => h2 e' (List.mem_cons_of_mem e he') hd'⟩
        | some p =>
            obtain ⟨t, v⟩ := p
            dsimp only
            constructor
            · intro h
              exfalso
              cases best with
              | none => exact lvdLoop_some_ne_none es _ h
              | some b =>
                  dsimp only at h
                  by_cases htg : tupGt t b.1 = true
                  · rw [if_pos htg] at h
                    exact lvdLoop_some_ne_none es _ h
                  · rw [if_neg htg] at h
                    exact lvdLoop_some_ne_none es _ h
            · rintro ⟨_, h2⟩
              exact absurd (h2 e (List.mem_cons_self e es) hd)
                (by rw [hm]; exact Option.noConfusion)
      · rw [if_neg hd]
        rw [ih best]
        constructor
        · rintro ⟨h1, h2⟩
          refine ⟨h1, ?_⟩
          intro e' he' hd'
          rcases List.mem_cons.mp he' with rfl | he''
          · exact absurd hd' hd
          · exact h2 e' he'' hd'
        · rintro ⟨h1, h2⟩
          exact ⟨h1, fun e' he' hd' => h2 e' (List.mem_cons_of_mem e he') hd'⟩

/-- `latest_version_dir` returns `none` exactly when no entry is a
directory whose name matches the version pattern (in particular on an
empty listing). -/
theorem latest_version_dir_none_iff (es : List DirEntry) :
    latest_version_dir es = none ↔
      ∀ e ∈ es, e.isDir = true → matchVer e.name = none := by
  unfold latest_version_dir
  cases hb : lvdLoop none es with
  | none =>
      simp only [Option.map_none']
      constructor
      · intro _
        exact ((lvdLoop_none_iff es none).mp hb).2
      · intro _
        exact trivial
  | some b =>
      simp only [Option.map_some']
      constructor
      · intro hx
        exact absurd hx (by simp)
      · intro hall
        have : lvdLoop none es = none :=
          (lvdLoop_none_iff es none).mpr ⟨rfl, hall⟩
        rw [hb] at this
        exact absurd this (by simp)

theorem lvdLoop_spec :
    ∀ (es : List DirEntry) (best : Option ((Nat × Nat × Nat) × String × DirEntry))
      (b : (Nat × Nat × Nat) × String × DirEntry),
      lvdLoop best es = some b →
      (best = some b ∨ (b.2.2 ∈ es ∧ b.2.2.isDir = true ∧
        matchVer b.2.2.name = some (b.1, b.2.1))) ∧
      (∀ b0, best = some b0 → tupGt b0.1 b.1 = false) ∧
      (∀ e' ∈ es, e'.isDir = true →
        ∀ t' v', matchVer e'.name = some (t', v') → tupGt t' b.1 = false) := by
  intro es
  induction es with
  | nil =>
      intro best b h
      refine ⟨Or.inl h, ?_, ?_⟩
      · intro b0 hb0
        rw [hb0] at h
        cases h
        exact tupGt_irrefl _
      · intro e' he'
        exact absurd he' (List.not_mem_nil e')
  | cons e es ih =>
      intro best b h
      rw [lvdLoop] at h
      by_cases hd : e.isDir = true
      · rw [if_pos hd] at h
        cases hm : matchVer e.name with
        | none =>
            rw [hm] at h
            dsimp only at h
            obtain ⟨hmem, hbest, hbound⟩ := ih best b h
            refine ⟨?_, hbest, ?_⟩
            · rcases hmem with h1 | ⟨h1, h2, h3⟩
              · exact Or.inl h1
              · exact Or.inr ⟨List.mem_cons_of_mem e h1, h2, h3⟩
            · intro e' he' hd' t' v' hm'
              rcases List.mem_cons.mp he' with rfl | he''
              · rw [hm] at hm'; exact Option.noConfusion hm'
              · exact hbound e' he'' hd' t' v' hm'
        | some p =>
            obtain ⟨t, v⟩ := p
            rw [hm] at h
            dsimp only at h
            cases best with
            | none =>
                obtain ⟨hmem, hbest, hbound⟩ := ih (some (t, v, e)) b h
                have htb : tupGt t b.1 = false := hbest (t, v, e) rfl
                refine ⟨?_, ?_, ?_⟩
                · rcases hmem with h1 | ⟨h1, h2, h3⟩
                  · rw [Option.some_inj] at h1
                    subst h1
                    exact Or.inr ⟨List.mem_cons_self e es, hd, hm⟩
                  · exact Or.inr ⟨List.mem_cons_of_mem e h1, h2, h3⟩
                · intro b0 hb0; exact Option.noConfusion hb0
                · intro e' he' hd' t' v' hm'
                  rcases List.mem_cons.mp he' with rfl | he''
                  · rw [hm] at hm'
                    rw [Option.some_inj] at hm'
                    have : t' = t := (congrArg Prod.fst hm').symm
                    rw [this]
                    exact htb
                  · exact hbound e' he'' hd' t' v' hm'
            | some b0 =>
                dsimp only at h
                by_cases htg : tupGt t b0.1 = true
                · rw [if_pos htg] at h
                  obtain ⟨hmem, hbest, hbound⟩ := ih (some (t, v, e)) b h
                  have htb : tupGt t b.1 = false := hbest (t, v, e) rfl
                  refine ⟨?_, ?_, ?_⟩
                  · rcases hmem with h1 | ⟨h1, h2, h3⟩
                    · rw [Option.some_inj] at h1
                      subst h1
                      exact Or.inr ⟨List.mem_cons_self e es, hd, hm⟩
                    · exact Or.inr ⟨List.mem_cons_of_mem e h1, h2, h3⟩
                  · intro b0' hb0'
                    rw [Option.some_inj] at hb0'
                    subst hb0'
                    exact tupGt_lt_le htg htb
                  · intro e' he' hd' t' v' hm'
                    rcases List.mem_cons.mp he' with rfl | he''
                    · rw [hm] at hm'
                      rw [Option.some_inj] at hm'
                      have : t' = t := (congrArg Prod.fst hm').symm
                      rw [this]
                      exact htb
                    · exact hbound e' he'' hd' t' v' hm'
                · rw [if_neg htg] at h
                  obtain ⟨hmem, hbest, hbound⟩ := ih (some b0) b h
                  have hb0b : tupGt b0.1 b.1 = false := hbest b0 rfl
                  have htgf : tupGt t b0.1 = false := by
                    cases hx : tupGt t b0.1 with
                    | false => rfl
                    | true => exact absurd hx htg
                  refine ⟨?_, ?_, ?_⟩
                  · rcases hmem with h1 | ⟨h1, h2, h3⟩
                    · exact Or.inl h1
                    · exact Or.inr ⟨List.mem_cons_of_mem e h1, h2, h3⟩
                  · intro b0' hb0'
                    rw [Option.some_inj] at hb0'
                    subst hb0'
                    exact hb0b
                  · intro e' he' hd' t' v' hm'
                    rcases List.mem_cons.mp he' with rfl | he''
                    · rw [hm] at hm'
                      rw [Option.some_inj] at hm'
                      have : t' = t := (congrArg Prod.fst hm').symm
                      rw [this]
                      exact tupGt_le_trans htgf hb0b
                    · exact hbound e' he'' hd' t' v' hm'
      · rw [if_neg hd] at h
        obtain ⟨hmem, hbest, hbound⟩ := ih best b h
        refine ⟨?_, hbest, ?_⟩
        · rcases hmem with h1 | ⟨h1, h2, h3⟩
          · exact Or.inl h1
          · exact Or.inr ⟨List.mem_cons_of_mem e h1, h2, h3⟩
        · intro e' he' hd' t' v' hm'
          rcases List.mem_cons.mp he' with rfl | he''
          · exact absurd hd' hd
          · exact hbound e' he'' hd' t' v' hm'

/-- The entry returned by `latest_version_dir` is a matching directory of
the listing whose numeric version triple no other matching directory
exceeds. -/
theorem latest_version_dir_spec (es : List DirEntry) (v : String)
    (e : DirEntry) (h : latest_version_dir es = some (v, e)) :
    e ∈ es ∧ e.isDir = true ∧ ∃ t, matchVer e.name = some (t, v) ∧
      ∀ e' ∈ es, e'.isDir = true → ∀ t' v',
        matchVer e'.name = some (t', v') → tupGt t' t = false := by
  unfold latest_version_dir at h
  cases hb : lvdLoop none es with
  | none => rw [hb] at h; exact Option.noConfusion h
  | some b =>
      rw [hb] at h
      rw [Option.map_some'] at h
      rw [Option.some_inj] at h
      obtain ⟨hmem, _, hbound⟩ := lvdLoop_spec es none b hb
      rcases hmem with h1 | ⟨h1, h2, h3⟩
      · exact Option.noConfusion h1
      · have hv : b.2.1 = v := congrArg Prod.fst h
        have he : b.2.2 = e := congrArg Prod.snd h
        rw [← he, ← hv]
        exact ⟨h1, h2, b.1, h3, hbound⟩

/-! ### Bridging lemmas for `mainRun` -/

theorem mainRun_spec (fs : FS) (h : discover fs ≠ []) :
    (mainRun fs).output = ((runDevices fs (discover fs)
      (RunState.mk (initStore fs) [] 0)).1).output ∧
    (mainRun fs).ok = (runDevices fs (discover fs)
      (RunState.mk (initStore fs) [] 0)).2 ∧
    (mainRun fs).fs = setManifests fs ((runDevices fs (discover fs)
      (RunState.mk (initStore fs) [] 0)).1).store := by
  unfold mainRun
  rw [if_neg h]
  exact ⟨rfl, rfl, rfl⟩

theorem initStore_eq (fs : FS) (r : FwRoot) (hfw : fs.fw = some r) :
    initStore fs = r.manifests := by
  unfold initStore
  rw [hfw]

theorem finalManifests_setManifests (fs : FS) (r : FwRoot)
    (hfw : fs.fw = some r) (s : List (String × JsonFile)) :
    initStore (setManifests fs s) = s := by
  unfold initStore setManifests
  rw [hfw]
  rfl

theorem setManifests_none (fs : FS) (hfw : fs.fw = none)
    (s : List (String × JsonFile)) : setManifests fs s = fs := by
  unfold setManifests
  rw [hfw]
  cases fs with
  | mk fw sp cfg =>
      cases hfw
      rfl

theorem setManifests_setManifests (fs : FS)
    (a b : List (String × JsonFile)) :
    setManifests (setManifests fs a) b = setManifests fs b := by
  unfold setManifests
  cases fs with
  | mk fw sp cfg => cases fw <;> rfl

theorem finalManifests_mainRun (fs : FS) (r : FwRoot) (hfw : fs.fw = some r)
    (h : discover fs ≠ []) :
    finalManifests (mainRun fs) = ((runDevices fs (discover fs)
      (RunState.mk (initStore fs) [] 0)).1).store := by
  obtain ⟨_, _, hfs⟩ := mainRun_spec fs h
  unfold finalManifests
  rw [hfs]
  exact finalManifests_setManifests fs r hfw _

/-! ### Clean key-lookup forms -/

theorem apply_get_name2 (fs : FS) (device : String) (m0 : Manifest) :
    dictGet (applyDevice fs device m0).1 "name" =
      some ((dictGet m0 "name").getD (.str device)) := by
  rw [apply_get_name fs device m0,
    dictGet_setdefault_ne _ _ _ _ (by decide : "$schema" ≠ "name")]

theorem dg_defaults_chip2 (device : String) (m0 : Manifest) :
    dictGet (defaultsOf device m0) "chip" =
      some ((dictGet m0 "chip").getD (.str "esp32")) := by
  unfold defaultsOf
  rw [dictGet_setdefault_self,
    dictGet_setdefault_ne _ _ _ _ (by decide : "name" ≠ "chip"),
    dictGet_setdefault_ne _ _ _ _ (by decide : "$schema" ≠ "chip")]

theorem apply_get_chip2 (fs : FS) (device : String) (m0 : Manifest) :
    dictGet (applyDevice fs device m0).1 "chip" =
      some ((dictGet m0 "chip").getD (.str "esp32")) := by
  rw [applyDevice_eq]
  unfold applyDeviceC
  cases hc : cfgOutcome fs device <;>
    cases hsp : spOutcome fs device <;>
    rcases hfw : fwOutcome fs device with _ | ⟨v, F⟩ <;>
    simp only [dictGet_set_ne _ _ _ _ (by decide : "config" ≠ "chip"),
      dictGet_set_ne _ _ _ _ (by decide : "spiffs" ≠ "chip"),
      dictGet_set_ne _ _ _ _ (by decide : "firmware" ≠ "chip"),
      dictGet_set_ne _ _ _ _ (by decide : "version" ≠ "chip")] <;>
    exact dg_defaults_chip2 device m0

theorem mainRun_empty (fs : FS) (h : discover fs = []) :
    mainRun fs = { fs := fs, output := [noDevicesMsg], ok := true } := by
  unfold mainRun
  rw [if_pos h]

/-! ### Concrete fixtures used by claim witnesses -/

def exEntryA : DirEntry := ⟨"v1.0.0", true, none⟩

def exEntryB : DirEntry := ⟨"v1.2.0", true, none⟩

def exEntryC : DirEntry := ⟨"v2.0.0-nonmatching", true, none⟩

def exEntryD : DirEntry := ⟨"v10.0.0", true, none⟩

def exEntries : List DirEntry := [exEntryA, exEntryB, exEntryC, exEntryD]

/-! ### Claim theorems -/

/-- C2: `latest_version_dir` considers only immediate subdirectories whose
names match `v<int>.<int>.<int>` exactly, returns one whose numeric
(major, minor, patch) triple no other matching subdirectory exceeds
(numeric tuple comparison, not lexical), returns `none` when nothing
matches (in particular when there are no subdirectories at all); and on
`v1.0.0`, `v1.2.0`, `v2.0.0-nonmatching`, `v10.0.0` it selects `v10.0.0`,
excluding `v2.0.0-nonmatching` as non-matching. -/
theorem C2_latest_version_dir :
    (∀ es : List DirEntry, latest_version_dir es = none ↔
      ∀ e ∈ es, e.isDir = true → matchVer e.name = none) ∧
    (∀ (es : List DirEntry) (v : String) (e : DirEntry),
      latest_version_dir es = some (v, e) →
      e ∈ es ∧ e.isDir = true ∧ ∃ t, matchVer e.name = some (t, v) ∧
        ∀ e' ∈ es, e'.isDir = true → ∀ t' v',
          matchVer e'.name = some (t', v') → tupGt t' t = false) ∧
    matchVer "v2.0.0-nonmatching" = none ∧
    latest_version_dir exEntries = some ("10.0.0", exEntryD) :=
  ⟨latest_version_dir_none_iff,
   fun es v e h => latest_version_dir_spec es v e h,
   by decide,
   by decide⟩

theorem C2_witness :
    exEntryD ∈ exEntries ∧ exEntryD.isDir = true ∧
      ∃ t, matchVer exEntryD.name = some (t, "10.0.0") ∧
        ∀ e' ∈ exEntries, e'.isDir = true → ∀ t' v',
          matchVer e'.name = some (t', v') → tupGt t' t = false :=
  C2_latest_version_dir.2.1 exEntries "10.0.0" exEntryD (by decide)

/-- C6: when no device directories are discovered under any of the three
roots, the program prints the `nothing to do` message, writes or modifies
no file (the filesystem is returned unchanged), and terminates
successfully. -/
theorem C6_no_devices (fs : FS) (h : discover fs = []) :
    mainRun fs = { fs := fs, output := [noDevicesMsg], ok := true } := by
  unfold mainRun
  rw [if_pos h]

def fsC6 : FS := { fw := none, sp := none, cfg := none }

theorem C6_witness :
    discover fsC6 = [] ∧
      mainRun fsC6 = { fs := fsC6, output := [noDevicesMsg], ok := true } :=
  ⟨rfl, C6_no_devices fsC6 rfl⟩

/-- C9: `process_spiffs` writes at most the `spiffs` key — every other
key, in particular `version`, reads the same before and after, whatever
the spiffs tree contains. -/
theorem C9_spiffs_frame (m : Manifest) (device : String)
    (es : List DirEntry) :
    dictGet (process_spiffs m device es) "version" = dictGet m "version" ∧
    ∀ k, k ≠ "spiffs" → dictGet (process_spiffs m device es) k =
      dictGet m k := by
  have hall : ∀ k, k ≠ "spiffs" →
      dictGet (process_spiffs m device es) k = dictGet m k := by
    intro k hk
    rw [process_spiffs_eq]
    cases spEntryOutcome device es with
    | none => rfl
    | some S => exact dictGet_set_ne _ _ _ _ (Ne.symm hk)
  exact ⟨hall "version" (by decide), hall⟩

def mC9 : Manifest := [("version", .str "0.1.0"), ("spiffs", .str "old")]

def esC9 : List DirEntry := [⟨"v9.9.9", true, some [3, 1]⟩]

theorem C9_witness :
    dictGet (process_spiffs mC9 "dev" esC9) "version" =
      dictGet mC9 "version" ∧
    dictGet (process_spiffs mC9 "dev" esC9) "name" = dictGet mC9 "name" :=
  ⟨(C9_spiffs_frame mC9 "dev" esC9).1,
   (C9_spiffs_frame mC9 "dev" esC9).2 "name" (by decide)⟩

/-- C5: when a device's firmware tree has a latest version directory
containing `firmware.bin`, the written `firmware` record carries the
64-lowercase-hex-character SHA-256 of the binary's full contents and its
exact byte length, and `version` is the selected semver directory name
without the leading `v`; a device whose config root contains `config.yaml`
gets a `config` record with exactly the keys `url` and `sha256` (no
`size`). -/
theorem C5_artifact_records :
    (∀ (fs : FS) (d : String) (es : List DirEntry) (v : String)
      (e : DirEntry) (bytes : List Nat) (m : Manifest),
      fwDirOf fs d = some es →
      latest_version_dir es = some (v, e) →
      e.bin = some bytes →
      spDirOf fs d = none →
      cfgDirOf fs d = none →
      dictGet (applyDevice fs d m).1 "version" = some (.str v) ∧
      e.name = "v" ++ v ∧
      dictGet (applyDevice fs d m).1 "firmware" = some (.obj
        [("url", .str (REPO_URL_BASE ++ "/firmware/" ++ d ++ "/" ++
            e.name ++ "/firmware.bin")),
         ("sha256", .str (sha256_of bytes)),
         ("size", .num bytes.length)]) ∧
      sha256_of bytes = sha256hex bytes ∧
      (sha256_of bytes).length = 64 ∧
      (∀ c ∈ (sha256_of bytes).toList, isLowerHexChar c)) ∧
    (∀ (fs : FS) (d : String) (yaml : List Nat) (m : Manifest),
      cfgDirOf fs d = some (some yaml) →
      dictGet (applyDevice fs d m).1 "config" = some (.obj
        [("url", .str (REPO_URL_BASE ++ "/config/" ++ d ++ "/config.yaml")),
         ("sha256", .str (sha256_of yaml))])) := by
  constructor
  · intro fs d es v e bytes m hdir hlvd hbin _hsp _hcfg
    have hout : fwOutcome fs d = some (v, fwJson d e.name bytes) := by
      unfold fwOutcome fwEntryOutcome
      rw [hdir]
      show (match latest_version_dir es with
        | none => none
        | some (v, vdir) => match vdir.bin with
          | none => none
          | some contents => some (v, fwJson d vdir.name contents)) = _
      rw [hlvd]
      dsimp only
      rw [hbin]
    obtain ⟨_, _, t, hmv, _⟩ := latest_version_dir_spec es v e hlvd
    refine ⟨?_, matchVer_name e.name t v hmv, ?_, sha256_of_eq bytes, ?_, ?_⟩
    · rw [apply_get_version, hout]
    · rw [apply_get_firmware, hout]
      rfl
    · rw [sha256_of_eq]
      exact sha256hex_length bytes
    · intro c hc
      rw [sha256_of_eq] at hc
      exact sha256hex_lower bytes c hc
  · intro fs d yaml m hcfg
    have hout : cfgOutcome fs d = some (cfgJson d yaml) := by
      unfold cfgOutcome
      rw [hcfg]
    rw [apply_get_config, hout]
    rfl

def fwRootC5 : FwRoot :=
  FwRoot.mk [("alpha", [⟨"v1.0.0", true, some [1, 2]⟩])] []

def fsC5a : FS := FS.mk (some fwRootC5) none none

def fsC5b : FS := FS.mk (some fwRootC5) none (some [("alpha", some [5])])

theorem C5_witness :
    (fwDirOf fsC5a "alpha" = some [⟨"v1.0.0", true, some [1, 2]⟩] ∧
      latest_version_dir [(⟨"v1.0.0", true, some [1, 2]⟩ : DirEntry)] =
        some ("1.0.0", ⟨"v1.0.0", true, some [1, 2]⟩) ∧
      spDirOf fsC5a "alpha" = none ∧
      cfgDirOf fsC5a "alpha" = none ∧
      sha256_of [1, 2] = sha256hex [1, 2] ∧
      (sha256_of [1, 2]).length = 64) ∧
    (cfgDirOf fsC5b "alpha" = some (some [5]) ∧
      dictGet (applyDevice fsC5b "alpha" []).1 "config" = some (.obj
        [("url", .str (REPO_URL_BASE ++ "/config/" ++ "alpha" ++
            "/config.yaml")),
         ("sha256", .str (sha256_of [5]))])) := by
  have h1 := C5_artifact_records.1 fsC5a "alpha"
    [⟨"v1.0.0", true, some [1, 2]⟩] "1.0.0" ⟨"v1.0.0", true, some [1, 2]⟩
    [1, 2] [] (by decide) (by decide) (by decide) (by decide) (by decide)
  exact ⟨⟨by decide, by decide, by decide, by decide,
      h1.2.2.2.1, h1.2.2.2.2.1⟩,
    ⟨by decide, C5_artifact_records.2 fsC5b "alpha" [5] [] (by decide)⟩⟩

def fsC1 : FS :=
  FS.mk (some (FwRoot.mk [] [])) none (some [("alpha", none)])

/-- C1 counterexample: device `alpha` exists only under `config/` — its
firmware directory `firmware/alpha` does not exist — yet the run completes
successfully and prints the firmware-missing note for it, because `main`
sets `found_fw = False` (and then prints) whenever `fw_dir.exists()` is
false, contradicting the claim that no firmware-missing message is printed
for a device whose firmware directory does not exist. -/
theorem C1_counterexample :
    fwDirOf fsC1 "alpha" = none ∧
    (mainRun fsC1).ok = true ∧
    noteFor "alpha" ∈ (mainRun fsC1).output := by
  refine ⟨by decide, by decide, ?_⟩
  show noteFor "alpha" ∈ (mainRun fsC1).output
  decide

/-- C1 (amended): the run prints the firmware-missing note for every
device for which no usable firmware binary was found — both when its
firmware directory exists without a usable binary and when that directory
does not exist at all — and in every such case the manifest's `version`
and `firmware` keys keep exactly the values of the pre-existing manifest
(they are never cleared). -/
theorem C1_no_firmware_note_and_frame (fs : FS) (r : FwRoot) (d : String)
    (hfw : fs.fw = some r)
    (hd : d ∈ discover fs)
    (hnofw : fwOutcome fs d = none)
    (hok : (mainRun fs).ok = true) :
    noteFor d ∈ (mainRun fs).output ∧
    ∃ m0 mw, loadManifest fs r.manifests d = some m0 ∧
      alistGet (finalManifests (mainRun fs)) d = some (.valid mw) ∧
      dictGet mw "version" = dictGet m0 "version" ∧
      dictGet mw "firmware" = dictGet m0 "firmware" := by
  have hne : discover fs ≠ [] := List.ne_nil_of_mem hd
  obtain ⟨hout, hok', _⟩ := mainRun_spec fs hne
  rw [hok'] at hok
  have hinit : initStore fs = r.manifests := initStore_eq fs r hfw
  obtain ⟨m0, hload, hget, hnote⟩ := runDevices_ok_spec fs (discover fs)
    (RunState.mk (initStore fs) [] 0) (discover_nodup fs) hok d hd
  have hsnd : (applyDevice fs d m0).2 = false := by
    rw [apply_snd, hnofw]
    rfl
  refine ⟨?_, m0, (applyDevice fs d m0).1, ?_, ?_, ?_, ?_⟩
  · rw [hout]
    exact hnote hsnd
  · rw [← hinit]
    exact hload
  · rw [finalManifests_mainRun fs r hfw hne]
    exact hget
  · rw [apply_get_version, hnofw]
  · rw [apply_get_firmware, hnofw]

theorem C1_witness :
    (fsC1.fw = some (FwRoot.mk [] []) ∧ "alpha" ∈ discover fsC1 ∧
      fwOutcome fsC1 "alpha" = none ∧ (mainRun fsC1).ok = true) ∧
    (noteFor "alpha" ∈ (mainRun fsC1).output ∧
      ∃ m0 mw, loadManifest fsC1 [] "alpha" = some m0 ∧
        alistGet (finalManifests (mainRun fsC1)) "alpha" =
          some (.valid mw) ∧
        dictGet mw "version" = dictGet m0 "version" ∧
        dictGet mw "firmware" = dictGet m0 "firmware") :=
  ⟨⟨rfl, by decide, rfl, by decide⟩,
   C1_no_firmware_note_and_frame fsC1 (FwRoot.mk [] []) "alpha" rfl
     (by decide) rfl (by decide)⟩

def specialKeys : List String :=
  ["$schema", "name", "chip", "version", "firmware", "spiffs", "config"]

/-- C4: for a device with a pre-existing manifest the run is a
read-merge-write: keys outside the seven managed ones keep their original
values; `$schema`, `name` and `chip` are only defaulted in when absent;
`version`/`firmware`, `spiffs` and `config` are overwritten whenever fresh
artifact data was found for the device. -/
theorem C4_read_merge_write (fs : FS) (r : FwRoot) (d : String)
    (m0 : Manifest)
    (hfw : fs.fw = some r)
    (hd : d ∈ discover fs)
    (hpre : alistGet r.manifests d = some (.valid m0))
    (hok : (mainRun fs).ok = true) :
    ∃ mw, alistGet (finalManifests (mainRun fs)) d = some (.valid mw) ∧
      (∀ k, k ∉ specialKeys → dictGet mw k = dictGet m0 k) ∧
      dictGet mw "$schema" =
        some ((dictGet m0 "$schema").getD (.str schemaDefault)) ∧
      dictGet mw "name" = some ((dictGet m0 "name").getD (.str d)) ∧
      dictGet mw "chip" = some ((dictGet m0 "chip").getD (.str "esp32")) ∧
      (∀ v F, fwOutcome fs d = some (v, F) →
        dictGet mw "version" = some (.str v) ∧
        dictGet mw "firmware" = some F) ∧
      (∀ S, spOutcome fs d = some S → dictGet mw "spiffs" = some S) ∧
      (∀ C, cfgOutcome fs d = some C → dictGet mw "config" = some C) := by
  have hne : discover fs ≠ [] := List.ne_nil_of_mem hd
  obtain ⟨_, hok', _⟩ := mainRun_spec fs hne
  rw [hok'] at hok
  have hinit : initStore fs = r.manifests := initStore_eq fs r hfw
  obtain ⟨m0', hload, hget, _⟩ := runDevices_ok_spec fs (discover fs)
    (RunState.mk (initStore fs) [] 0) (discover_nodup fs) hok d hd
  have hm0 : m0' = m0 := by
    unfold loadManifest at hload
    rw [hfw] at hload
    dsimp only at hload
    rw [hinit, hpre] at hload
    dsimp only at hload
    exact (Option.some_inj.mp hload).symm
  subst hm0
  refine ⟨(applyDevice fs d m0').1, ?_, ?_, ?_, ?_, ?_, ?_, ?_, ?_⟩
  · rw [finalManifests_mainRun fs r hfw hne]
    exact hget
  · intro k hk
    simp only [specialKeys, List.mem_cons, List.not_mem_nil, or_false,
      not_or] at hk
    obtain ⟨h1, h2, h3, h4, h5, h6, h7⟩ := hk
    exact apply_get_other fs d m0' k h1 h2 h3 h4 h5 h6 h7
  · exact apply_get_schema fs d m0'
  · exact apply_get_name2 fs d m0'
  · exact apply_get_chip2 fs d m0'
  · intro v F hvF
    constructor
    · rw [apply_get_version, hvF]
    · rw [apply_get_firmware, hvF]
  · intro S hS
    rw [apply_get_spiffs, hS]
  · intro C hC
    rw [apply_get_config, hC]

def mC4 : Manifest := [("custom", .str "keep"), ("chip", .str "esp8266")]

def fwRootC4 : FwRoot :=
  FwRoot.mk [("alpha", [])] [("alpha", .valid mC4)]

def fsC4 : FS := FS.mk (some fwRootC4) none none

theorem C4_witness :
    (fsC4.fw = some fwRootC4 ∧ "alpha" ∈ discover fsC4 ∧
      alistGet fwRootC4.manifests "alpha" = some (.valid mC4) ∧
      (mainRun fsC4).ok = true) ∧
    (∃ mw, alistGet (finalManifests (mainRun fsC4)) "alpha" =
        some (.valid mw) ∧
      (∀ k, k ∉ specialKeys → dictGet mw k = dictGet mC4 k) ∧
      dictGet mw "$schema" =
        some ((dictGet mC4 "$schema").getD (.str schemaDefault)) ∧
      dictGet mw "name" = some ((dictGet mC4 "name").getD (.str "alpha")) ∧
      dictGet mw "chip" =
        some ((dictGet mC4 "chip").getD (.str "esp32")) ∧
      (∀ v F, fwOutcome fsC4 "alpha" = some (v, F) →
        dictGet mw "version" = some (.str v) ∧
        dictGet mw "firmware" = some F) ∧
      (∀ S, spOutcome fsC4 "alpha" = some S →
        dictGet mw "spiffs" = some S) ∧
      (∀ C, cfgOutcome fsC4 "alpha" = some C →
        dictGet mw "config" = some C)) :=
  ⟨⟨rfl, by decide, rfl, by decide⟩,
   C4_read_merge_write fsC4 fwRootC4 "alpha" mC4 rfl (by decide) rfl
     (by decide)⟩

/-- C8: a malformed pre-existing manifest aborts the whole run with no
per-device isolation and no rollback: the run's verdict is failure, every
device sorted before the offending one keeps its freshly written manifest,
and every other manifest file (the offending device's included) is exactly
as before the run. -/
theorem C8_abort_no_rollback (fs : FS) (r : FwRoot) (d : String)
    (ds1 ds2 : List String)
    (hfw : fs.fw = some r)
    (hds : discover fs = ds1 ++ d :: ds2)
    (hmal : alistGet r.manifests d = some .malformed)
    (hpre : ∀ e ∈ ds1, loadManifest fs r.manifests e ≠ none) :
    (mainRun fs).ok = false ∧
    (∀ e ∈ ds1, ∃ m0, loadManifest fs r.manifests e = some m0 ∧
      alistGet (finalManifests (mainRun fs)) e =
        some (.valid (applyDevice fs e m0).1)) ∧
    (∀ x, x ∉ ds1 →
      alistGet (finalManifests (mainRun fs)) x = alistGet r.manifests x) := by
  have hne : discover fs ≠ [] := by
    rw [hds]
    cases ds1 <;> simp
  obtain ⟨_, hok', _⟩ := mainRun_spec fs hne
  have hinit : initStore fs = r.manifests := initStore_eq fs r hfw
  have hnd : (ds1 ++ d :: ds2).Nodup := by
    rw [← hds]
    exact discover_nodup fs
  obtain ⟨habort, hkept, hrest⟩ := runDevices_abort_spec fs r hfw d ds1 ds2
    (RunState.mk (initStore fs) [] 0) hnd
    (by
      intro e he
      show loadManifest fs (initStore fs) e ≠ none
      rw [hinit]
      exact hpre e he)
    (by
      show alistGet (initStore fs) d = some .malformed
      rw [hinit]
      exact hmal)
  have hfinal : finalManifests (mainRun fs) =
      ((runDevices fs (ds1 ++ d :: ds2)
        (RunState.mk (initStore fs) [] 0)).1).store := by
    rw [finalManifests_mainRun fs r hfw hne, hds]
  refine ⟨?_, ?_, ?_⟩
  · rw [hok', hds]
    exact habort
  · intro e he
    obtain ⟨m0, hm0, hget⟩ := hkept e he
    rw [hinit] at hm0
    refine ⟨m0, hm0, ?_⟩
    rw [hfinal]
    exact hget
  · intro x hx
    rw [hfinal, hrest x hx]
    show alistGet (initStore fs) x = _
    rw [hinit]

def fwRootC8 : FwRoot :=
  FwRoot.mk [("alpha", []), ("beta", [])] [("beta", .malformed)]

def fsC8 : FS := FS.mk (some fwRootC8) none none

theorem C8_witness :
    (fsC8.fw = some fwRootC8 ∧
      discover fsC8 = ["alpha"] ++ "beta" :: [] ∧
      alistGet fwRootC8.manifests "beta" = some .malformed ∧
      (∀ e ∈ ["alpha"], loadManifest fsC8 fwRootC8.manifests e ≠ none)) ∧
    ((mainRun fsC8).ok = false ∧
      (∀ e ∈ ["alpha"], ∃ m0,
        loadManifest fsC8 fwRootC8.manifests e = some m0 ∧
        alistGet (finalManifests (mainRun fsC8)) e =
          some (.valid (applyDevice fsC8 e m0).1)) ∧
      (∀ x, x ∉ ["alpha"] →
        alistGet (finalManifests (mainRun fsC8)) x =
          alistGet fwRootC8.manifests x)) :=
  ⟨⟨rfl, by decide, rfl, by
      intro e he
      rw [List.mem_singleton] at he
      subst he
      intro hcon
      exact Option.noConfusion
        ((rfl : loadManifest fsC8 fwRootC8.manifests "alpha" =
          some []).symm.trans hcon)⟩,
   C8_abort_no_rollback fsC8 fwRootC8 "beta" ["alpha"] [] rfl (by decide)
     rfl (by
      intro e he
      rw [List.mem_singleton] at he
      subst he
      intro hcon
      exact Option.noConfusion
        ((rfl : loadManifest fsC8 fwRootC8.manifests "alpha" =
          some []).symm.trans hcon))⟩

/-- C10: manifests are always written inside `firmware/`, whichever root a
device was discovered under; hence if devices exist only under `spiffs/`
or `config/` while the `firmware/` root directory itself is missing, the
very first manifest write raises and the run aborts with nothing written
(the filesystem is unchanged). -/
theorem C10_missing_fw_root (fs : FS) (hfw : fs.fw = none)
    (hne : discover fs ≠ []) :
    (mainRun fs).ok = false ∧ (mainRun fs).fs = fs := by
  obtain ⟨_, hok', hfs'⟩ := mainRun_spec fs hne
  cases hds : discover fs with
  | nil => exact absurd hds hne
  | cons e ds' =>
      have hload : loadManifest fs (initStore fs) e = some [] := by
        unfold loadManifest
        rw [hfw]
      have hstep : ∃ st2, stepDevice fs (RunState.mk (initStore fs) [] 0) e =
          .error st2 ∧ st2.store = initStore fs := by
        unfold stepDevice
        rw [hload]
        dsimp only
        rw [hfw]
        exact ⟨_, rfl, rfl⟩
      obtain ⟨st2, hst2, hst2s⟩ := hstep
      have hrun : runDevices fs (e :: ds')
          (RunState.mk (initStore fs) [] 0) = (st2, false) := by
        rw [runDevices, hst2]
      have hinit : initStore fs = [] := by
        unfold initStore
        rw [hfw]
      constructor
      · rw [hok', hds, hrun]
      · rw [hfs', hds, hrun]
        show setManifests fs st2.store = fs
        exact setManifests_none fs hfw st2.store

def fsC10 : FS := FS.mk none none (some [("gamma", none)])

theorem C10_witness :
    (fsC10.fw = none ∧ discover fsC10 ≠ []) ∧
    ((mainRun fsC10).ok = false ∧ (mainRun fsC10).fs = fsC10) :=
  ⟨⟨rfl, by decide⟩, C10_missing_fw_root fsC10 rfl (by decide)⟩

/-- C3: running the tool twice over an unchanged input tree is idempotent —
the filesystem after the second run (manifest files included, hence their
serialized bytes) is exactly the filesystem after the first. -/
theorem C3_idempotent (fs : FS) :
    (mainRun ((mainRun fs).fs)).fs = (mainRun fs).fs := by
  by_cases hds : discover fs = []
  · rw [mainRun_empty fs hds]
    dsimp only
    rw [mainRun_empty fs hds]
  · obtain ⟨_, _, hfs1⟩ := mainRun_spec fs hds
    cases hfw : fs.fw with
    | none =>
        have hid : (mainRun fs).fs = fs := by
          rw [hfs1]
          exact setManifests_none fs hfw _
        rw [hid]
        exact hid
    | some r =>
        rw [hfs1]
        have hds2 : discover (setManifests fs
            ((runDevices fs (discover fs)
              (RunState.mk (initStore fs) [] 0)).1).store) = discover fs :=
          discover_setManifests fs _
        have hne2 : discover (setManifests fs
            ((runDevices fs (discover fs)
              (RunState.mk (initStore fs) [] 0)).1).store) ≠ [] := by
          rw [hds2]; exact hds
        obtain ⟨_, _, hfs2⟩ := mainRun_spec _ hne2
        rw [hfs2, hds2]
        rw [runDevices_setManifests fs _ (discover fs) _]
        rw [finalManifests_setManifests fs r hfw _]
        have hrerun := (runDevices_rerun fs (discover fs)
          (discover_nodup fs) (RunState.mk (initStore fs) [] 0) [] 0).1
        rw [hrerun, setManifests_setManifests]

def fwRootC3 : FwRoot := FwRoot.mk [("alpha", [])] []

def fsC3 : FS := FS.mk (some fwRootC3) none none

theorem C3_witness :
    (mainRun ((mainRun fsC3).fs)).fs = (mainRun fsC3).fs :=
  C3_idempotent fsC3

/-- C7: changing only the byte contents of one device's firmware binaries
between two runs over otherwise identical trees leaves the written
manifest file of every other device byte-identical across the runs, and
confines the changed device's difference to its `firmware` record (same
keys, same `url` — only `sha256`/`size` values can differ). -/
theorem C7_noninterference (fs1 fs2 : FS) (r1 r2 : FwRoot) (d : String)
    (hfw1 : fs1.fw = some r1) (hfw2 : fs2.fw = some r2)
    (hsp : fs1.sp = fs2.sp) (hcfg : fs1.cfg = fs2.cfg)
    (hman : r1.manifests = r2.manifests)
    (hkeys : r1.deviceDirs.map Prod.fst = r2.deviceDirs.map Prod.fst)
    (hoff : ∀ e, e ≠ d → alistGet r1.deviceDirs e = alistGet r2.deviceDirs e)
    (hrel : dirListRel (alistGet r1.deviceDirs d)
      (alistGet r2.deviceDirs d)) :
    (∀ e, e ≠ d → alistGet (finalManifests (mainRun fs1)) e =
      alistGet (finalManifests (mainRun fs2)) e) ∧
    jsonFileRel (alistGet (finalManifests (mainRun fs1)) d)
      (alistGet (finalManifests (mainRun fs2)) d) := by
  have hds : discover fs1 = discover fs2 := by
    unfold discover
    rw [hfw1, hfw2, hsp, hcfg]
    simp only [Option.map_some']
    simp only [rootNames]
    rw [hkeys]
  by_cases hne : discover fs1 = []
  · have hne2 : discover fs2 = [] := by rw [← hds]; exact hne
    rw [mainRun_empty fs1 hne, mainRun_empty fs2 hne2]
    constructor
    · intro e _
      show alistGet (initStore fs1) e = alistGet (initStore fs2) e
      rw [initStore_eq fs1 r1 hfw1, initStore_eq fs2 r2 hfw2, hman]
    · show jsonFileRel (alistGet (initStore fs1) d)
        (alistGet (initStore fs2) d)
      rw [initStore_eq fs1 r1 hfw1, initStore_eq fs2 r2 hfw2, hman]
      exact jsonFileRel_refl _
  · have hne2 : discover fs2 ≠ [] := by rw [← hds]; exact hne
    rw [finalManifests_mainRun fs1 r1 hfw1 hne,
      finalManifests_mainRun fs2 r2 hfw2 hne2, ← hds]
    have hstores : ∀ e, alistGet (initStore fs1) e =
        alistGet (initStore fs2) e := by
      intro e
      rw [initStore_eq fs1 r1 hfw1, initStore_eq fs2 r2 hfw2, hman]
    exact runDevices_parallel fs1 fs2 r1 r2 d hfw1 hfw2 hsp hcfg hoff hrel
      (discover fs1) (discover_nodup fs1)
      (RunState.mk (initStore fs1) [] 0) (RunState.mk (initStore fs2) [] 0)
      (fun e _ => hstores e) (fun _ => hstores d)
      (fun _ => jsonFileRel_of_eq (hstores d))

def fwRootC7a : FwRoot :=
  FwRoot.mk [("alpha", [⟨"v1.0.0", true, some [1]⟩]),
    ("beta", [⟨"v1.0.0", true, some [7]⟩])] []

def fwRootC7b : FwRoot :=
  FwRoot.mk [("alpha", [⟨"v1.0.0", true, some [2, 9]⟩]),
    ("beta", [⟨"v1.0.0", true, some [7]⟩])] []

def fsC7a : FS := FS.mk (some fwRootC7a) none none

def fsC7b : FS := FS.mk (some fwRootC7b) none none

theorem C7_witness :
    (fsC7a.fw = some fwRootC7a ∧ fsC7b.fw = some fwRootC7b ∧
      fwRootC7a.deviceDirs.map Prod.fst =
        fwRootC7b.deviceDirs.map Prod.fst) ∧
    ((∀ e, e ≠ "alpha" → alistGet (finalManifests (mainRun fsC7a)) e =
      alistGet (finalManifests (mainRun fsC7b)) e) ∧
    jsonFileRel (alistGet (finalManifests (mainRun fsC7a)) "alpha")
      (alistGet (finalManifests (mainRun fsC7b)) "alpha")) := by
  refine ⟨⟨rfl, rfl, by decide⟩, ?_⟩
  refine C7_noninterference fsC7a fsC7b fwRootC7a fwRootC7b "alpha"
    rfl rfl rfl rfl rfl (by decide) ?_ ?_
  · intro e he
    have hne : ¬("alpha" = e) := fun h => he h.symm
    show alistGet fwRootC7a.deviceDirs e = alistGet fwRootC7b.deviceDirs e
    simp [fwRootC7a, fwRootC7b, alistGet, hne]
  · show List.Forall₂ entryShapeEq [⟨"v1.0.0", true, some [1]⟩]
      [⟨"v1.0.0", true, some [2, 9]⟩]
    exact List.Forall₂.cons ⟨rfl, rfl, rfl⟩ List.Forall₂.nil

end Manifests
